import Mathlib

/-!
Verification of the Kaizen MCP server's framing and dispatch layer.

This file is a shallow embedding of the Go sources of
`kaizen-ai-systems/mcp-server`:

  * the frame reader and writer (`readMessage`, `parseContentLength`,
    `writeMessage` from the transport file),
  * the JSON-RPC envelope types (`jsonRPCRequest`, `jsonRPCResponse`,
    `jsonRPCError`),
  * the dispatch loop (`Server.Serve`, `Server.handleToolCall` and the
    per-tool handlers from `internal/mcp/server.go`),
  * the static tool catalog (`toolDefinitions` from `internal/mcp/tools.go`).

Modelling conventions:

  * Byte streams are `List Char` (all wire data in scope is ASCII text;
    Go strings are modelled by Lean strings / char lists).
  * JSON values are the inductive `JsonValue`; Go's `float64` JSON numbers
    are modelled as integers (`Int`), which is faithful for every value the
    program itself constructs and for all inputs considered by the claims.
  * Go's `encoding/json` is modelled by an executable serializer
    (`marshalV`) and a fueled recursive-descent decoder (`parseValue`).
    The decoder handles compact JSON (no interstitial whitespace), which is
    the form produced by the serializer and by every input considered here;
    Go's decoder additionally skips whitespace.  JSON objects are
    association lists; Go maps additionally deduplicate keys.
  * `bufio.Reader.ReadString` is modelled by `goReadString`, which returns
    the data read, the remaining stream, and whether the delimiter was
    found (`false` corresponds to an `io.EOF` return in Go).
  * The outbound HTTP client (`kaizenAPIClient.call`) is an external
    collaborator; handlers are parametrized by an oracle
    `exec : execCall → Except String JsonValue`.  "The executor is never
    invoked" is expressed extensionally: the outcome is a constant
    independent of the oracle.
  * Go loops (`Server.Serve`, the header-collection loop) become
    fuel-indexed structural recursions so that everything computes by
    `rfl`/`decide`; the fuel supplied is always sufficient for the inputs
    considered, and theorems quantify over the fuel where needed.
-/

/-! ## Go string primitives -/

/-- `unicode.IsSpace` restricted to the ASCII range, which is all the
claims exercise (Go additionally treats some non-ASCII code points as
space). -/
def isGoSpace (c : Char) : Bool :=
  c = ' ' || c = '\t' || c = '\n' || c = (Char.ofNat 11) || c = (Char.ofNat 12) || c = '\r'

/-- Trailing-character trim used to model `strings.TrimRight(line, "\r\n")`. -/
def goTrimRightCRLF (s : List Char) : List Char :=
  (s.reverse.dropWhile (fun c => c = '\r' || c = '\n')).reverse

/-- `strings.TrimSpace` (ASCII subset): strip leading and trailing space. -/
def goTrimSpace (s : List Char) : List Char :=
  ((s.dropWhile isGoSpace).reverse.dropWhile isGoSpace).reverse

/-- `strings.SplitN(s, sep, 2)` when `sep` is a single character: `none`
when the separator does not occur (Go returns a one-element slice, which
the caller skips), otherwise the part before the first separator and
everything after it. -/
def goSplitN2 : List Char → Char → Option (List Char × List Char)
  | [], _ => none
  | c :: rest, sep =>
    if c = sep then some ([], rest)
    else
      match goSplitN2 rest sep with
      | some (a, b) => some (c :: a, b)
      | none => none

/-- ASCII lower-casing, for `strings.EqualFold`. -/
def asciiLower (c : Char) : Char :=
  if 'A' ≤ c && c ≤ 'Z' then Char.ofNat (c.toNat + 32) else c

/-- `strings.EqualFold` restricted to ASCII folding (the only header name
compared is `Content-Length`, which is ASCII). -/
def goEqualFold : List Char → List Char → Bool
  | [], [] => true
  | a :: as, b :: bs => asciiLower a = asciiLower b && goEqualFold as bs
  | _, _ => false

def isDigitChar (c : Char) : Bool := '0' ≤ c && c ≤ '9'

def digitVal (c : Char) : Nat := c.toNat - 48

def foldDigits : Nat → List Char → Nat
  | acc, [] => acc
  | acc, c :: cs => foldDigits (acc * 10 + digitVal c) cs

/-- The digit-string part of `strconv.Atoi`: all characters must be
decimal digits and there must be at least one. -/
def parseDigits (s : List Char) : Option Nat :=
  match s with
  | [] => none
  | _ => if s.all isDigitChar then some (foldDigits 0 s) else none

/-- `strconv.Atoi`: optional sign followed by decimal digits.  Overflow is
not modelled (`Int` is unbounded); no claim depends on it. -/
def goAtoi (s : List Char) : Option Int :=
  match s with
  | '+' :: rest => (parseDigits rest).map Int.ofNat
  | '-' :: rest => (parseDigits rest).map (fun n => -(Int.ofNat n))
  | _ => (parseDigits s).map Int.ofNat

def digitChar : Nat → Char
  | 0 => '0' | 1 => '1' | 2 => '2' | 3 => '3' | 4 => '4'
  | 5 => '5' | 6 => '6' | 7 => '7' | 8 => '8' | _ => '9'

/-- Decimal printing of a natural number (the `%d` verb / `strconv.Itoa`),
with an explicit fuel that makes the definition structural; `natToChars`
supplies fuel `n + 1`, which is always sufficient. -/
def natToCharsCore : Nat → Nat → List Char → List Char
  | 0, _, acc => acc
  | fuel + 1, n, acc =>
    if n < 10 then digitChar n :: acc
    else natToCharsCore fuel (n / 10) (digitChar (n % 10) :: acc)

def natToChars (n : Nat) : List Char := natToCharsCore (n + 1) n []

def intToChars (n : Int) : List Char :=
  if n < 0 then '-' :: natToChars n.natAbs else natToChars n.toNat

def hexDigitChar : Nat → Char
  | 0 => '0' | 1 => '1' | 2 => '2' | 3 => '3' | 4 => '4'
  | 5 => '5' | 6 => '6' | 7 => '7' | 8 => '8' | 9 => '9'
  | 10 => 'a' | 11 => 'b' | 12 => 'c' | 13 => 'd' | 14 => 'e' | _ => 'f'

def hexVal (c : Char) : Option Nat :=
  if '0' ≤ c && c ≤ '9' then some (c.toNat - 48)
  else if 'a' ≤ c && c ≤ 'f' then some (c.toNat - 87)
  else if 'A' ≤ c && c ≤ 'F' then some (c.toNat - 55)
  else none

/-! ## JSON values and the encoder (`encoding/json.Marshal`) -/

/-- A decoded JSON value (`interface{}` holding the result of
`encoding/json` decoding).  Numbers are modelled as integers. -/
inductive JsonValue where
  | null
  | bool (b : Bool)
  | num (n : Int)
  | str (s : String)
  | arr (elems : List JsonValue)
  | obj (fields : List (String × JsonValue))

/-- First-match association-list lookup, modelling indexing a decoded Go
map (`args[key]`). -/
def lookupField : List (String × JsonValue) → String → Option JsonValue
  | [], _ => none
  | (k, v) :: rest, key => if k = key then some v else lookupField rest key

/-- String-escaping of one character, as `encoding/json` emits it.  (Go
additionally escapes `<`, `>`, `&` and U+2028/U+2029 by default; those
extra escapes decode to the same character, so they are immaterial to
every property stated here.) -/
def escChar (c : Char) : List Char :=
  if c = '"' then ['\\', '"']
  else if c = '\\' then ['\\', '\\']
  else if c = '\n' then ['\\', 'n']
  else if c = '\r' then ['\\', 'r']
  else if c = '\t' then ['\\', 't']
  else if c.toNat < 32 then
    ['\\', 'u', '0', '0', hexDigitChar (c.toNat / 16), hexDigitChar (c.toNat % 16)]
  else [c]

def escapeList : List Char → List Char
  | [] => []
  | c :: cs => escChar c ++ escapeList cs

mutual

/-- Compact JSON serialization (`json.Marshal`). -/
def marshalV : JsonValue → List Char
  | .null => "null".toList
  | .bool true => "true".toList
  | .bool false => "false".toList
  | .num n => intToChars n
  | .str s => '"' :: (escapeList s.toList ++ ['"'])
  | .arr es => '[' :: (marshalElems es ++ [']'])
  | .obj fs => '{' :: (marshalMembers fs ++ ['}'])

def marshalElems : List JsonValue → List Char
  | [] => []
  | v :: vs => marshalV v ++ marshalElemsTail vs

def marshalElemsTail : List JsonValue → List Char
  | [] => []
  | v :: vs => ',' :: (marshalV v ++ marshalElemsTail vs)

def marshalMembers : List (String × JsonValue) → List Char
  | [] => []
  | (k, v) :: fs =>
    '"' :: (escapeList k.toList ++ '"' :: ':' :: (marshalV v ++ marshalMembersTail fs))

def marshalMembersTail : List (String × JsonValue) → List Char
  | [] => []
  | (k, v) :: fs =>
    ',' :: '"' :: (escapeList k.toList ++ '"' :: ':' :: (marshalV v ++ marshalMembersTail fs))

end

def indentChars (d : Nat) : List Char := List.replicate (2 * d) ' '

mutual

/-- `json.MarshalIndent(v, "", "  ")`, used for the pretty-printed text
rendering of a successful tool result. -/
def marshalIndentV (d : Nat) : JsonValue → List Char
  | .arr [] => ['[', ']']
  | .arr (v :: vs) =>
    '[' :: '\n' :: (indentChars (d + 1) ++ marshalIndentV (d + 1) v ++
      marshalIndentElems (d + 1) vs ++ '\n' :: (indentChars d ++ [']']))
  | .obj [] => ['{', '}']
  | .obj ((k, v) :: fs) =>
    '{' :: '\n' :: (indentChars (d + 1) ++
      '"' :: (escapeList k.toList ++ '"' :: ':' :: ' ' :: marshalIndentV (d + 1) v) ++
      marshalIndentMembers (d + 1) fs ++ '\n' :: (indentChars d ++ ['}']))
  | v => marshalV v

def marshalIndentElems (d : Nat) : List JsonValue → List Char
  | [] => []
  | v :: vs => ',' :: '\n' :: (indentChars d ++ marshalIndentV d v ++ marshalIndentElems d vs)

def marshalIndentMembers (d : Nat) : List (String × JsonValue) → List Char
  | [] => []
  | (k, v) :: fs =>
    ',' :: '\n' :: (indentChars d ++
      '"' :: (escapeList k.toList ++ '"' :: ':' :: ' ' :: marshalIndentV d v) ++
      marshalIndentMembers d fs)

end

/-! ## JSON-RPC envelope types (unnamed wire-types file, `jsonRPCRequest`
etc.) -/

/-- `jsonRPCError`: code, message, optional detail (`data,omitempty`). -/
structure jsonRPCError where
  code : Int
  message : String
  data : Option JsonValue

/-- `jsonRPCRequest` after decoding.  `id` and `params` are
`json.RawMessage` fields with `omitempty`: `none` models a structurally
absent member (`len(req.ID) == 0` in Go), while `some v` models a present
member whose decoded value is `v` (so `some .null` is an explicit JSON
`null`). -/
structure jsonRPCRequest where
  jsonrpc : String
  id : Option JsonValue
  method : String
  params : Option JsonValue

/-- `jsonRPCResponse`.  `id` and `result` are `interface{}` fields with
`omitempty` (dropped from the serialization exactly when the Go interface
is nil, modelled as `none`); `error` is a nilable pointer. -/
structure jsonRPCResponse where
  jsonrpc : String
  id : Option JsonValue
  result : Option JsonValue
  error : Option jsonRPCError

/-- Serialization of a `*jsonRPCError` (struct field order: code,
message, data; `data` dropped when nil). -/
def errorToJson (e : jsonRPCError) : JsonValue :=
  .obj ([("code", .num e.code), ("message", .str e.message)] ++
    (match e.data with
     | some d => [("data", d)]
     | none => []))

/-- The JSON object `json.Marshal` produces for a response (struct field
order: jsonrpc, id, result, error; the `omitempty` fields are included
exactly when present). -/
def responseToJson (resp : jsonRPCResponse) : JsonValue :=
  .obj ([("jsonrpc", .str resp.jsonrpc)] ++
    (match resp.id with
     | some v => [("id", v)]
     | none => []) ++
    (match resp.result with
     | some v => [("result", v)]
     | none => []) ++
    (match resp.error with
     | some e => [("error", errorToJson e)]
     | none => []))

def marshalResponse (resp : jsonRPCResponse) : List Char :=
  marshalV (responseToJson resp)

/-! ## Frame reader and writer (unnamed transport file) -/

/-- Errors of the transport layer.  `eof` models `io.EOF` (what
`errors.Is(err, io.EOF)` recognizes, including a wrapped `io.EOF`);
`protocol` models every other error value. -/
inductive ReadError where
  | eof
  | protocol (msg : String)
deriving DecidableEq

/-- `bufio.Reader.ReadString('\n')`: data up to and including the first
newline, the rest of the stream, and whether the delimiter was found
(`false` is Go's `io.EOF` return, with the partial data as first
component and an exhausted stream). -/
def goReadString : List Char → List Char × List Char × Bool
  | [] => ([], [], false)
  | c :: rest =>
    if c = '\n' then ([c], rest, true)
    else
      match goReadString rest with
      | (line, r, b) => (c :: line, r, b)

/-- The header-collection loop inside `readMessage`: keep reading lines,
right-trimming `\r\n`, until an empty line; return the collected header
lines and the remaining stream.  A line hitting end-of-stream propagates
the reader's `io.EOF`.  The fuel (one unit per line read) makes the loop
structural; callers pass `input.length + 1`, which is always enough since
every successfully read line consumes at least one character. -/
def readHeaderLines : Nat → List Char → Except ReadError (List (List Char) × List Char)
  | 0, _ => .error .eof
  | fuel + 1, input =>
    match goReadString input with
    | (line, rest, sawDelim) =>
      if sawDelim then
        let clean := goTrimRightCRLF line
        if clean = [] then .ok ([], rest)
        else
          match readHeaderLines fuel rest with
          | .ok (hs, rest2) => .ok (clean :: hs, rest2)
          | .error e => .error e
      else .error .eof

/-- `parseContentLength`: scan the header lines for the first one that
splits on `:` and whose trimmed name equals `Content-Length` under
case-insensitive comparison; its trimmed value must parse as a positive
integer. -/
def parseContentLength : List (List Char) → Except ReadError Nat
  | [] => .error (.protocol "missing Content-Length header")
  | header :: rest =>
    match goSplitN2 header ':' with
    | none => parseContentLength rest
    | some (name, value) =>
      if goEqualFold (goTrimSpace name) ("Content-Length".toList) then
        let rawLen := goTrimSpace value
        match goAtoi rawLen with
        | some l =>
          if l ≤ 0 then .error (.protocol "invalid Content-Length value")
          else .ok l.toNat
        | none => .error (.protocol "invalid Content-Length value")
      else parseContentLength rest

/-- `readMessage`: one frame from the stream.  Line-delimited mode when
the first trimmed line starts with `{`, otherwise Content-Length
framing.  Returns the frame and the remaining stream.

The payload-read step models `io.ReadFull`: zero available bytes is a bare
`io.EOF` (which, wrapped by `fmt.Errorf("...: %w", err)`, still satisfies
`errors.Is(err, io.EOF)`), while a short read is `io.ErrUnexpectedEOF`,
a distinct error. -/
def readMessage (input : List Char) : Except ReadError (List Char × List Char) :=
  match goReadString input with
  | (firstLine, rest, sawDelim) =>
    if sawDelim then
      let trimmed := goTrimSpace firstLine
      if trimmed = [] then .error (.protocol "received empty message")
      else if trimmed.head? = some '{' then .ok (trimmed, rest)
      else
        match readHeaderLines (rest.length + 1) rest with
        | .error e => .error e
        | .ok (moreHeaders, rest2) =>
          let headers := goTrimRightCRLF firstLine :: moreHeaders
          match parseContentLength headers with
          | .error e => .error e
          | .ok length =>
            if rest2 = [] then .error .eof
            else if rest2.length < length then
              .error (.protocol "failed to read payload: unexpected EOF")
            else .ok (rest2.take length, rest2.drop length)
    else
      let trimmed := goTrimSpace firstLine
      if trimmed = [] then .error .eof
      else if trimmed.head? = some '{' then .ok (trimmed, rest)
      else .error .eof

/-- `writeMessage`: serialize the response and emit it with
Content-Length framing; the result is the byte sequence written to the
output stream. -/
def writeMessage (resp : jsonRPCResponse) : List Char :=
  let payload := marshalResponse resp
  ("Content-Length: ".toList ++ natToChars payload.length ++
    ['\r', '\n', '\r', '\n']) ++ payload

/-! ## JSON decoder (`encoding/json.Unmarshal`) -/

def consStr (c : Char) : Option (List Char × List Char) → Option (List Char × List Char)
  | some (cs, r) => some (c :: cs, r)
  | none => none

/-- Body of a JSON string after the opening quote: unescape until the
closing quote, returning the decoded characters and the rest.  Surrogate
pairs in `\u` escapes are not modelled (no claim involves them).  The
fuel (one unit per decoded character) makes the recursion structural;
callers always supply at least the input length. -/
def parseStringBody : Nat → List Char → Option (List Char × List Char)
  | 0, _ => none
  | fuel + 1, input =>
    match input with
    | [] => none
    | c :: rest =>
      if c = '"' then some ([], rest)
      else if c = '\\' then
        match rest with
        | [] => none
        | e :: r =>
          if e = '"' then consStr '"' (parseStringBody fuel r)
          else if e = '\\' then consStr '\\' (parseStringBody fuel r)
          else if e = '/' then consStr '/' (parseStringBody fuel r)
          else if e = 'n' then consStr '\n' (parseStringBody fuel r)
          else if e = 'r' then consStr '\r' (parseStringBody fuel r)
          else if e = 't' then consStr '\t' (parseStringBody fuel r)
          else if e = 'b' then consStr (Char.ofNat 8) (parseStringBody fuel r)
          else if e = 'f' then consStr (Char.ofNat 12) (parseStringBody fuel r)
          else if e = 'u' then
            match r with
            | h1 :: h2 :: h3 :: h4 :: r2 =>
              match hexVal h1, hexVal h2, hexVal h3, hexVal h4 with
              | some a, some b, some c2, some d =>
                consStr (Char.ofNat (((a * 16 + b) * 16 + c2) * 16 + d))
                  (parseStringBody fuel r2)
              | _, _, _, _ => none
            | _ => none
          else none
      else consStr c (parseStringBody fuel rest)

/-- A run of decimal digits and its value. -/
def parseNumDigits (input : List Char) : Option (Nat × List Char) :=
  match input.takeWhile isDigitChar with
  | [] => none
  | ds => some (foldDigits 0 ds, input.dropWhile isDigitChar)

mutual

/-- Recursive-descent JSON value parser.  The fuel bounds the nesting and
element recursion; `parseJson` supplies `input.length + 1`, which is
sufficient for every parse that succeeds. -/
def parseValue : Nat → List Char → Option (JsonValue × List Char)
  | 0, _ => none
  | fuel + 1, input =>
    match input with
    | 'n' :: 'u' :: 'l' :: 'l' :: rest => some (.null, rest)
    | 't' :: 'r' :: 'u' :: 'e' :: rest => some (.bool true, rest)
    | 'f' :: 'a' :: 'l' :: 's' :: 'e' :: rest => some (.bool false, rest)
    | '"' :: rest =>
      match parseStringBody fuel rest with
      | some (cs, r) => some (.str (String.mk cs), r)
      | none => none
    | '[' :: rest =>
      match parseElems fuel rest with
      | some (vs, r) => some (.arr vs, r)
      | none => none
    | '{' :: rest =>
      match parseMembers fuel rest with
      | some (ms, r) => some (.obj ms, r)
      | none => none
    | '-' :: rest =>
      match parseNumDigits rest with
      | some (n, r) => some (.num (-(Int.ofNat n)), r)
      | none => none
    | c :: _ =>
      if isDigitChar c then
        match parseNumDigits input with
        | some (n, r) => some (.num (Int.ofNat n), r)
        | none => none
      else none
    | [] => none

/-- Element list after `[`: empty on an immediate `]`, otherwise a value
followed by the continuation. -/
def parseElems : Nat → List Char → Option (List JsonValue × List Char)
  | fuel, input =>
    if input.head? = some ']' then some ([], input.tail)
    else
      match fuel with
      | 0 => none
      | f + 1 =>
        match parseValue f input with
        | some (v, r1) =>
          match parseElemsTail f r1 with
          | some (vs, r2) => some (v :: vs, r2)
          | none => none
        | none => none

/-- Element list continuation: `]` ends the list, `,` introduces the next
value. -/
def parseElemsTail : Nat → List Char → Option (List JsonValue × List Char)
  | fuel, input =>
    if input.head? = some ']' then some ([], input.tail)
    else if input.head? = some ',' then
      match fuel with
      | 0 => none
      | f + 1 =>
        match parseValue f input.tail with
        | some (v, r1) =>
          match parseElemsTail f r1 with
          | some (vs, r2) => some (v :: vs, r2)
          | none => none
        | none => none
    else none

/-- Member list after an opening brace: empty on an immediate closing
brace, otherwise a quoted key, `:`, a value, and the continuation. -/
def parseMembers : Nat → List Char → Option (List (String × JsonValue) × List Char)
  | fuel, input =>
    if input.head? = some '}' then some ([], input.tail)
    else
      match fuel, input with
      | f + 1, '"' :: r0 =>
        match parseStringBody f r0 with
        | some (kcs, r1) =>
          match r1 with
          | ':' :: r2 =>
            match parseValue f r2 with
            | some (v, r3) =>
              match parseMembersTail f r3 with
              | some (ms, r4) => some ((String.mk kcs, v) :: ms, r4)
              | none => none
            | none => none
          | _ => none
        | none => none
      | _, _ => none

/-- Member list continuation: a closing brace ends the object, `,`
introduces the next member. -/
def parseMembersTail : Nat → List Char → Option (List (String × JsonValue) × List Char)
  | fuel, input =>
    if input.head? = some '}' then some ([], input.tail)
    else if input.head? = some ',' then
      match fuel, input.tail with
      | f + 1, '"' :: r0 =>
        match parseStringBody f r0 with
        | some (kcs, r1) =>
          match r1 with
          | ':' :: r2 =>
            match parseValue f r2 with
            | some (v, r3) =>
              match parseMembersTail f r3 with
              | some (ms, r4) => some ((String.mk kcs, v) :: ms, r4)
              | none => none
            | none => none
          | _ => none
        | none => none
      | _, _ => none
    else none

end

/-- Whole-payload JSON decoding: one value consuming the entire input
(Go additionally allows trailing whitespace). -/
def parseJson (input : List Char) : Option JsonValue :=
  match parseValue (input.length + 1) input with
  | some (v, rest) => if rest.all isGoSpace then some v else none
  | none => none

/-! ## Request decoding (`json.Unmarshal(payload, &req)`) -/

/-- Decoding a JSON value into a `string`-typed struct field: an absent
member or JSON `null` leaves the zero value; any other non-string value
is a type error that fails the whole `Unmarshal`. -/
def getStringMember (fields : List (String × JsonValue)) (key : String) :
    Except String String :=
  match lookupField fields key with
  | none => .ok ""
  | some .null => .ok ""
  | some (.str s) => .ok s
  | some _ => .error "cannot unmarshal value into field of type string"

/-- `json.Unmarshal(payload, &req)` for `jsonRPCRequest`: the payload must
be a JSON object (or `null`, which leaves the zero struct); `jsonrpc` and
`method` must be strings when present; `id` and `params` are
`json.RawMessage` fields that accept any value.  Any failure makes the
serve loop drop the message. -/
def decodeRequest (payload : List Char) : Except String jsonRPCRequest :=
  match parseJson payload with
  | none => .error "invalid JSON payload"
  | some .null => .ok ⟨"", none, "", none⟩
  | some (.obj fields) =>
    match getStringMember fields "jsonrpc", getStringMember fields "method" with
    | .ok jsonrpc, .ok method =>
      .ok ⟨jsonrpc, lookupField fields "id", method, lookupField fields "params"⟩
    | .error e, _ => .error e
    | _, .error e => .error e
  | some _ => .error "cannot unmarshal value into jsonRPCRequest"

/-! ## Tool catalog and constants -/

/-- Modelled from the spec: the protocol version constant reported by
`initialize` — the constants file of the `internal/mcp` package is not
among the provided sources; the spec and the repository README fix the
protocol version as `2024-11-05`. -/
def protocol : String := "2024-11-05"

/-- Modelled from the spec: the fixed server name reported by
`initialize` (the constants file is not among the provided sources; the
spec says only that it is a fixed constant). -/
def serverName : String := "kaizen-mcp"

/-- Modelled from the spec: the fixed server version reported by
`initialize` (the constants file is not among the provided sources). -/
def serverVersion : String := "1.0.0"

/-- One entry of `toolDefinitions` (`internal/mcp/tools.go`), already in
its JSON form (name, description, inputSchema). -/
def toolDefJson (name description : String) (schema : JsonValue) : JsonValue :=
  .obj [("name", .str name), ("description", .str description), ("inputSchema", schema)]

def strProp (ty : String) : JsonValue := .obj [("type", .str ty)]

/-- `toolDefinitions()` from `internal/mcp/tools.go`: the static catalog
of the seven registered tools. -/
def toolDefinitions : List JsonValue :=
  [ toolDefJson "akuma.query"
      "Translate natural language into SQL (optionally returning rows or explanation)."
      (.obj [("type", .str "object"),
             ("properties", .obj
               [("dialect", .obj [("type", .str "string"),
                  ("enum", .arr [.str "postgres", .str "mysql", .str "snowflake", .str "bigquery"])]),
                ("prompt", strProp "string"),
                ("mode", .obj [("type", .str "string"),
                  ("enum", .arr [.str "sql-only", .str "sql-and-results", .str "explain"])]),
                ("maxRows", strProp "number"),
                ("guardrails", strProp "object")]),
             ("required", .arr [.str "dialect", .str "prompt"]),
             ("additionalProperties", .bool false)]),
    toolDefJson "akuma.explain" "Explain a SQL query in plain English."
      (.obj [("type", .str "object"),
             ("properties", .obj [("sql", strProp "string")]),
             ("required", .arr [.str "sql"]),
             ("additionalProperties", .bool false)]),
    toolDefJson "akuma.schema" "Set Akuma schema context used for query generation."
      (.obj [("type", .str "object"),
             ("properties", .obj
               [("version", strProp "string"),
                ("tables", .obj [("type", .str "array"), ("items", strProp "object")])]),
             ("required", .arr [.str "tables"]),
             ("additionalProperties", .bool false)]),
    toolDefJson "enzan.summary" "Summarize GPU spend and usage for a time window."
      (.obj [("type", .str "object"),
             ("properties", .obj
               [("window", .obj [("type", .str "string"),
                  ("enum", .arr [.str "1h", .str "24h", .str "7d", .str "30d"])]),
                ("groupBy", .obj [("type", .str "array"), ("items", strProp "string")])]),
             ("additionalProperties", .bool false)]),
    toolDefJson "enzan.burn" "Get current burn rate in USD/hour."
      (.obj [("type", .str "object"),
             ("properties", .obj []),
             ("additionalProperties", .bool false)]),
    toolDefJson "sozo.generate" "Generate synthetic tabular data from a schema or named preset."
      (.obj [("type", .str "object"),
             ("properties", .obj
               [("records", strProp "number"),
                ("schemaName", strProp "string"),
                ("schema", strProp "object"),
                ("correlations", strProp "object"),
                ("seed", strProp "number")]),
             ("required", .arr [.str "records"]),
             ("additionalProperties", .bool false)]),
    toolDefJson "sozo.schemas" "List built-in Sozo schema presets."
      (.obj [("type", .str "object"),
             ("properties", .obj []),
             ("additionalProperties", .bool false)]) ]

/-! ## Tool handlers (`internal/mcp/server.go`) -/

/-- One invocation of the Remote Operation Executor
(`kaizenAPIClient.call`): HTTP verb, path, optional JSON payload. -/
structure execCall where
  verb : String
  path : String
  payload : Option JsonValue

/-- The Remote Operation Executor as an oracle: produces either a decoded
JSON object or an error string (`err.Error()` in Go). -/
def Executor : Type := execCall → Except String JsonValue

/-- Arguments mapping of a tool call (`map[string]interface{}`). -/
def Args : Type := List (String × JsonValue)

/-- `args[key].(string)` with the two-result form: the string on success,
the zero value `""` when the key is absent or the value is not a string. -/
def getStringArg (args : Args) (key : String) : String :=
  match lookupField args key with
  | some (.str s) => s
  | _ => ""

/-- `strings.TrimSpace` on a Go string value. -/
def goTrimSpaceS (s : String) : String := String.mk (goTrimSpace s.toList)

/-- `Server.callAkumaQuery`. -/
def callAkumaQuery (exec : Executor) (args : Args) : Except String JsonValue :=
  let dialect := getStringArg args "dialect"
  let prompt := getStringArg args "prompt"
  if goTrimSpaceS dialect = "" then .error "dialect is required"
  else if goTrimSpaceS prompt = "" then .error "prompt is required"
  else
    let payload := [("dialect", JsonValue.str dialect), ("prompt", JsonValue.str prompt)]
    let payload := match lookupField args "mode" with
      | some v => payload ++ [("mode", v)]
      | none => payload
    let payload := match lookupField args "maxRows" with
      | some v => payload ++ [("maxRows", v)]
      | none => payload
    let payload := match lookupField args "guardrails" with
      | some v => payload ++ [("guardrails", v)]
      | none => payload
    exec ⟨"POST", "/v1/akuma/query", some (.obj payload)⟩

/-- `Server.callAkumaExplain`. -/
def callAkumaExplain (exec : Executor) (args : Args) : Except String JsonValue :=
  let sql := getStringArg args "sql"
  if goTrimSpaceS sql = "" then .error "sql is required"
  else exec ⟨"POST", "/v1/akuma/explain", some (.obj [("sql", .str sql)])⟩

/-- `Server.callAkumaSchema`: requires the `tables` key to be present
(with any value, `null` included). -/
def callAkumaSchema (exec : Executor) (args : Args) : Except String JsonValue :=
  match lookupField args "tables" with
  | none => .error "tables is required"
  | some tables =>
    let payload := [("tables", tables)]
    let payload := match lookupField args "version" with
      | some v => payload ++ [("version", v)]
      | none => payload
    exec ⟨"POST", "/v1/akuma/schema", some (.obj payload)⟩

/-- `Server.callEnzanSummary`: no required arguments; `window` defaults
to `"24h"`. -/
def callEnzanSummary (exec : Executor) (args : Args) : Except String JsonValue :=
  let payload := match lookupField args "window" with
    | some v => [("window", v)]
    | none => [("window", JsonValue.str "24h")]
  let payload := match lookupField args "groupBy" with
    | some v => payload ++ [("groupBy", v)]
    | none => payload
  exec ⟨"POST", "/v1/enzan/summary", some (.obj payload)⟩

/-- `Server.callSozoGenerate`: requires `records`, and at least one of
`schema` / `schemaName`. -/
def callSozoGenerate (exec : Executor) (args : Args) : Except String JsonValue :=
  match lookupField args "records" with
  | none => .error "records is required"
  | some records =>
    match lookupField args "schema", lookupField args "schemaName" with
    | none, none => .error "schema or schemaName is required"
    | _, _ =>
      let payload := [("records", records)]
      let payload := match lookupField args "schema" with
        | some v => payload ++ [("schema", v)]
        | none => payload
      let payload := match lookupField args "schemaName" with
        | some v => payload ++ [("schemaName", v)]
        | none => payload
      let payload := match lookupField args "correlations" with
        | some v => payload ++ [("correlations", v)]
        | none => payload
      let payload := match lookupField args "seed" with
        | some v => payload ++ [("seed", v)]
        | none => payload
      exec ⟨"POST", "/v1/sozo/generate", some (.obj payload)⟩

/-! ## Tool-call decoding and dispatch -/

/-- `toolsCallParams` after decoding: tool name and argument mapping. -/
structure toolsCallParams where
  name : String
  arguments : Args

/-- `json.Unmarshal(raw, &params)` for `toolsCallParams`.  `none` models
a `nil` raw message (request without a `params` member), which fails with
"unexpected end of JSON input".  A JSON `null` leaves the zero value; a
non-object value or wrongly-typed member is a type error. -/
def decodeToolsCallParams : Option JsonValue → Except String toolsCallParams
  | none => .error "unexpected end of JSON input"
  | some .null => .ok ⟨"", []⟩
  | some (.obj fields) =>
    match getStringMember fields "name" with
    | .error e => .error e
    | .ok name =>
      match lookupField fields "arguments" with
      | none => .ok ⟨name, []⟩
      | some .null => .ok ⟨name, []⟩
      | some (.obj args) => .ok ⟨name, args⟩
      | some _ => .error "cannot unmarshal value into field arguments"
  | some _ => .error "cannot unmarshal value into toolsCallParams"

/-- The success/failure wrapping at the end of `Server.handleToolCall`:
an executor or validation error becomes a tool result carrying
`isError: true` and the error text; a success carries the pretty-printed
rendering and the structured payload. -/
def wrapToolOutcome : Except String JsonValue → Option JsonValue × Option jsonRPCError
  | .error msg =>
    (some (.obj [("content", .arr [.obj [("type", .str "text"), ("text", .str msg)]]),
                 ("isError", .bool true)]), none)
  | .ok data =>
    (some (.obj [("content", .arr [.obj [("type", .str "text"),
                                         ("text", .str (String.mk (marshalIndentV 0 data)))]]),
                 ("structuredContent", data)]), none)

/-- `Server.handleToolCall`: decode the inner params, dispatch on the tool
name (a Go `switch`, i.e. sequential string comparison), wrap the handler
outcome.  Returns the result/rpc-error pair exactly as the Go function
does. -/
def handleToolCall (exec : Executor) (raw : Option JsonValue) :
    Option JsonValue × Option jsonRPCError :=
  match decodeToolsCallParams raw with
  | .error e =>
    (none, some ⟨-32602, "invalid tool call params", some (.str e)⟩)
  | .ok params =>
    if params.name = "akuma.query" then wrapToolOutcome (callAkumaQuery exec params.arguments)
    else if params.name = "akuma.explain" then wrapToolOutcome (callAkumaExplain exec params.arguments)
    else if params.name = "akuma.schema" then wrapToolOutcome (callAkumaSchema exec params.arguments)
    else if params.name = "enzan.summary" then wrapToolOutcome (callEnzanSummary exec params.arguments)
    else if params.name = "enzan.burn" then wrapToolOutcome (exec ⟨"GET", "/v1/enzan/burn", none⟩)
    else if params.name = "sozo.generate" then wrapToolOutcome (callSozoGenerate exec params.arguments)
    else if params.name = "sozo.schemas" then wrapToolOutcome (exec ⟨"GET", "/v1/sozo/schemas", none⟩)
    else (none, some ⟨-32602, "unknown tool", some (.str params.name)⟩)

/-- The fixed `initialize` result document. -/
def initializeResult : JsonValue :=
  .obj [("protocolVersion", .str protocol),
        ("capabilities", .obj [("tools", .obj [])]),
        ("serverInfo", .obj [("name", .str serverName), ("version", .str serverVersion)])]

/-- The method `switch` of `Server.Serve`: the result/rpc-error pair each
branch computes (sequential string comparison, like the Go `switch`).
`notifications/initialized` and `initialized` never reach this switch. -/
def dispatchMethod (exec : Executor) (req : jsonRPCRequest) :
    Option JsonValue × Option jsonRPCError :=
  if req.method = "initialize" then (some initializeResult, none)
  else if req.method = "ping" then (some (.obj []), none)
  else if req.method = "tools/list" then
    (some (.obj [("tools", .arr toolDefinitions)]), none)
  else if req.method = "tools/call" then handleToolCall exec req.params
  else (none, some ⟨-32601, "method not found", some (.str req.method)⟩)

/-- The id placed in the response: the decoded identifier value.  Decoding
the raw id bytes into `interface{}` turns an explicit JSON `null` into a
nil interface, which the response's `omitempty` then drops; every other
value is echoed.  (The Go fallback for an id that fails to re-decode is
dead code: the raw bytes were carved out of an already-valid JSON
document.) -/
def interpId : JsonValue → Option JsonValue
  | .null => none
  | v => some v

/-- Terminal state of the serve loop. -/
inductive ServeOutcome where
  | cleanExit
  | fatal (e : ReadError)
  | outOfFuel
deriving DecidableEq

/-- `Server.Serve`: the read/decode/dispatch/respond loop.  Returns all
bytes written to the output stream and how the loop ended.  One unit of
fuel per message; every iteration that continues consumes at least one
input character, so fuel `input.length + 1` always suffices, and the
claims quantify over any sufficient fuel. -/
def serve (exec : Executor) : Nat → List Char → List Char × ServeOutcome
  | 0, _ => ([], .outOfFuel)
  | fuel + 1, input =>
    match readMessage input with
    | .error .eof => ([], .cleanExit)
    | .error e => ([], .fatal e)
    | .ok (payload, rest) =>
      match decodeRequest payload with
      | .error _ => serve exec fuel rest
      | .ok req =>
        if req.method = "notifications/initialized" || req.method = "initialized" then
          serve exec fuel rest
        else
          let outcome := dispatchMethod exec req
          match req.id with
          | none => serve exec fuel rest
          | some idv =>
            let resp : jsonRPCResponse :=
              ⟨"2.0", interpId idv, outcome.1, outcome.2⟩
            let out := writeMessage resp
            match serve exec fuel rest with
            | (moreOut, final) => (out ++ moreOut, final)

/-! ## Spec-side observation helpers used by the claims -/

/-- The `isError` flag of a tool result object. -/
def isErrorFlag : JsonValue → Bool
  | .obj fs =>
    match lookupField fs "isError" with
    | some (.bool true) => true
    | _ => false
  | _ => false

/-- The text of the first content item of a tool result. -/
def contentText : JsonValue → Option String
  | .obj fs =>
    match lookupField fs "content" with
    | some (.arr (item :: _)) =>
      match item with
      | .obj ifs =>
        match lookupField ifs "text" with
        | some (.str s) => some s
        | _ => none
      | _ => none
    | _ => none
  | _ => none

/-- A `handleToolCall` outcome that is a tool-level failure: no RPC
error, a result whose `isError` flag is true and whose first content item
carries a non-empty text message. -/
def toolFailureWithMessage : Option JsonValue × Option jsonRPCError → Bool
  | (some res, none) =>
    isErrorFlag res &&
      (match contentText res with
       | some s => s != ""
       | none => false)
  | _ => false

/-- The raw `params` value of a `tools/call` request with the given tool
name and arguments object. -/
def mkToolCallRaw (name : String) (args : Args) : Option JsonValue :=
  some (.obj [("name", .str name), ("arguments", .obj args)])

/-- Whether a JSON value is a string (the type-assertion test
`v.(string)`). -/
def isStringValue : JsonValue → Bool
  | .str _ => true
  | _ => false

/-- Whether a header line names `Content-Length` (splits on `:` with a
case-insensitively matching trimmed name). -/
def headerNameIsCL (h : List Char) : Bool :=
  match goSplitN2 h ':' with
  | some (name, _) => goEqualFold (goTrimSpace name) ("Content-Length".toList)
  | none => false

/-- The `strconv.Atoi` reading of a header line's value part. -/
def headerCLValue (h : List Char) : Option Int :=
  match goSplitN2 h ':' with
  | some (_, value) => goAtoi (goTrimSpace value)
  | none => none

/-- A Content-Length header line whose value is invalid: non-numeric or
not positive. -/
def clValueBad (h : List Char) : Bool :=
  match headerCLValue h with
  | some l => decide (l ≤ 0)
  | none => true

/-- A sequence of lines, each terminated by `\r\n`. -/
def joinCRLF : List (List Char) → List Char
  | [] => []
  | h :: t => h ++ '\r' :: '\n' :: joinCRLF t

/-- Decoding of a serialized response's top-level members: identifier,
result, and error (the error object decoded back into `jsonRPCError`). -/
def decodeErrorObj : JsonValue → Option jsonRPCError
  | .obj fs =>
    match lookupField fs "code", lookupField fs "message" with
    | some (.num c), some (.str m) => some ⟨c, m, lookupField fs "data"⟩
    | _, _ => none
  | _ => none

def decodeResponse (payload : List Char) :
    Option (Option JsonValue × Option JsonValue × Option jsonRPCError) :=
  match parseJson payload with
  | some (.obj fs) =>
    match lookupField fs "error" with
    | none => some (lookupField fs "id", lookupField fs "result", none)
    | some ev =>
      match decodeErrorObj ev with
      | some e => some (lookupField fs "id", lookupField fs "result", some e)
      | none => none
  | _ => none

/-- The top-level members of the serialized form of a response. -/
def serializedFields (resp : jsonRPCResponse) : Option (List (String × JsonValue)) :=
  match parseJson (marshalResponse resp) with
  | some (.obj fs) => some fs
  | _ => none

/-- A concrete executor used by witnesses (the behavior of
`kaizenAPIClient.call` when no API key is configured). -/
def execNoKey : Executor := fun _ => .error "KAIZEN_API_KEY is not set"

/-- No leading decimal digit: the condition under which a JSON number
parse cannot overrun into the following text. -/
def noLeadingDigit : List Char → Bool
  | [] => true
  | c :: _ => !isDigitChar c

/-- Exactly one of result/error is present in a dispatch outcome. -/
def exclusiveOutcome : Option JsonValue × Option jsonRPCError → Bool
  | (some _, none) => true
  | (none, some _) => true
  | _ => false

/-- The closed set of registered tool names. -/
def registeredToolNames : List String :=
  ["akuma.query", "akuma.explain", "akuma.schema", "enzan.summary",
   "enzan.burn", "sozo.generate", "sozo.schemas"]


/-! ## Basic list and character lemmas -/

theorem dropWhile_eq_self_of_all {p : Char → Bool} {l : List Char}
    (h : ∀ c ∈ l, p c = false) : l.dropWhile p = l := by
  cases l with
  | nil => rfl
  | cons c cs => simp [List.dropWhile_cons, h c (by simp)]

theorem goTrimSpace_of_clean {s : List Char}
    (h : ∀ c ∈ s, isGoSpace c = false) : goTrimSpace s = s := by
  unfold goTrimSpace
  rw [dropWhile_eq_self_of_all h, dropWhile_eq_self_of_all (by simpa using h),
    List.reverse_reverse]

theorem goTrimSpace_cons_space (s : List Char) :
    goTrimSpace (' ' :: s) = goTrimSpace s := by
  unfold goTrimSpace
  rw [List.dropWhile_cons]
  norm_num [isGoSpace]

theorem goTrimSpace_append_crlf (s : List Char) :
    goTrimSpace (s ++ ['\r', '\n']) = goTrimSpace s := by
  unfold goTrimSpace
  rw [List.dropWhile_append]
  by_cases h : (List.dropWhile isGoSpace s).isEmpty = true
  · rw [if_pos h]
    rw [List.isEmpty_iff] at h
    rw [h]
    rfl
  · rw [if_neg h]
    rw [List.reverse_append,
      show (['\r', '\n'] : List Char).reverse = ['\n', '\r'] from rfl,
      show (['\n', '\r'] : List Char) ++ (List.dropWhile isGoSpace s).reverse =
        '\n' :: '\r' :: (List.dropWhile isGoSpace s).reverse from rfl,
      List.dropWhile_cons, List.dropWhile_cons]
    norm_num [isGoSpace]

theorem goTrimRightCRLF_append {s : List Char}
    (hr : '\r' ∉ s) (hn : '\n' ∉ s) :
    goTrimRightCRLF (s ++ ['\r', '\n']) = s := by
  unfold goTrimRightCRLF
  rw [List.reverse_append]
  show (List.dropWhile _ ('\n' :: '\r' :: s.reverse)).reverse = s
  rw [List.dropWhile_cons, List.dropWhile_cons]
  norm_num
  rw [dropWhile_eq_self_of_all, List.reverse_reverse]
  intro c hc
  rw [List.mem_reverse] at hc
  have h1 : c ≠ '\r' := fun h => hr (h ▸ hc)
  have h2 : c ≠ '\n' := fun h => hn (h ▸ hc)
  simp [h1, h2]

theorem goTrimRightCRLF_clean {s : List Char}
    (hr : '\r' ∉ s) (hn : '\n' ∉ s) :
    goTrimRightCRLF s = s := by
  unfold goTrimRightCRLF
  rw [dropWhile_eq_self_of_all, List.reverse_reverse]
  intro c hc
  rw [List.mem_reverse] at hc
  have h1 : c ≠ '\r' := fun h => hr (h ▸ hc)
  have h2 : c ≠ '\n' := fun h => hn (h ▸ hc)
  simp [h1, h2]

theorem goReadString_crlf {h : List Char} (hn : '\n' ∉ h) (rest : List Char) :
    goReadString (h ++ '\r' :: '\n' :: rest) = (h ++ ['\r', '\n'], rest, true) := by
  induction h with
  | nil => rfl
  | cons c cs ih =>
    have hc : c ≠ '\n' := fun e => hn (by simp [e])
    have hcs : '\n' ∉ cs := fun e => hn (by simp [e])
    simp only [List.cons_append, goReadString, hc, if_false]
    simp [List.append_eq, ih hcs]

theorem goReadString_no_newline {l : List Char} (hn : '\n' ∉ l) :
    goReadString l = (l, [], false) := by
  induction l with
  | nil => rfl
  | cons c cs ih =>
    have hc : c ≠ '\n' := fun e => hn (by simp [e])
    have hcs : '\n' ∉ cs := fun e => hn (by simp [e])
    simp only [goReadString, hc, if_false]
    simp [List.append_eq, ih hcs]

theorem goSplitN2_append {l : List Char} {sep : Char} (h : sep ∉ l) (r : List Char) :
    goSplitN2 (l ++ sep :: r) sep = some (l, r) := by
  induction l with
  | nil => simp [goSplitN2]
  | cons c cs ih =>
    have hc : c ≠ sep := fun e => h (by simp [e])
    have hcs : sep ∉ cs := fun e => h (by simp [e])
    simp only [List.cons_append, goSplitN2, hc, if_false]
    simp [List.append_eq, ih hcs]

/-! ## Decimal printing lemmas -/

theorem isDigitChar_digitChar (n : Nat) : isDigitChar (digitChar n) = true := by
  unfold digitChar
  split <;> decide

theorem digitVal_digitChar {n : Nat} (h : n < 10) : digitVal (digitChar n) = n := by
  interval_cases n <;> decide

theorem natToCharsCore_acc (fuel : Nat) :
    ∀ n acc, natToCharsCore fuel n acc = natToCharsCore fuel n [] ++ acc := by
  induction fuel with
  | zero => intro n acc; rfl
  | succ f ih =>
    intro n acc
    by_cases h : n < 10
    · simp [natToCharsCore, h]
    · simp only [natToCharsCore, h, if_false]
      rw [ih (n / 10) (digitChar (n % 10) :: acc), ih (n / 10) [digitChar (n % 10)]]
      simp

theorem natToCharsCore_ne_nil (fuel n : Nat) : natToCharsCore (fuel + 1) n [] ≠ [] := by
  by_cases h : n < 10
  · simp [natToCharsCore, h]
  · simp only [natToCharsCore, h, if_false]
    rw [natToCharsCore_acc]
    simp

theorem natToChars_ne_nil (n : Nat) : natToChars n ≠ [] := natToCharsCore_ne_nil n n

theorem natToCharsCore_digits (fuel : Nat) :
    ∀ n, n < fuel → ∀ c ∈ natToCharsCore fuel n [], isDigitChar c = true := by
  induction fuel with
  | zero => intro n h; omega
  | succ f ih =>
    intro n hn c hc
    by_cases h : n < 10
    · simp [natToCharsCore, h] at hc
      rw [hc]; exact isDigitChar_digitChar n
    · simp only [natToCharsCore, h, if_false] at hc
      rw [natToCharsCore_acc] at hc
      rcases List.mem_append.mp hc with h1 | h1
      · have hdiv : n / 10 < f := by
          have h1 := Nat.div_lt_self (by omega : 0 < n) (by omega : 1 < 10)
          omega
        exact ih (n / 10) hdiv c h1
      · simp at h1
        rw [h1]; exact isDigitChar_digitChar _

theorem natToChars_digits (n : Nat) : ∀ c ∈ natToChars n, isDigitChar c = true :=
  natToCharsCore_digits (n + 1) n (by omega)

theorem foldDigits_append (acc : Nat) (xs ys : List Char) :
    foldDigits acc (xs ++ ys) = foldDigits (foldDigits acc xs) ys := by
  induction xs generalizing acc with
  | nil => rfl
  | cons c cs ih =>
    rw [List.cons_append]
    show foldDigits (acc * 10 + digitVal c) (cs ++ ys) = _
    rw [ih]
    rfl

theorem natToCharsCore_succ (f n : Nat) (acc : List Char) :
    natToCharsCore (f + 1) n acc =
      if n < 10 then digitChar n :: acc
      else natToCharsCore f (n / 10) (digitChar (n % 10) :: acc) := rfl

theorem foldDigits_natToCharsCore (fuel : Nat) :
    ∀ n, n < fuel → foldDigits 0 (natToCharsCore fuel n []) = n := by
  induction fuel with
  | zero => intro n h; omega
  | succ f ih =>
    intro n hn
    rw [natToCharsCore_succ]
    by_cases h : n < 10
    · rw [if_pos h]
      show foldDigits (0 * 10 + digitVal (digitChar n)) [] = n
      rw [digitVal_digitChar h]
      show 0 * 10 + n = n
      omega
    · have hdiv : n / 10 < f := by
        have h1 := Nat.div_lt_self (by omega : 0 < n) (by omega : 1 < 10)
        omega
      rw [if_neg h, natToCharsCore_acc, foldDigits_append, ih (n / 10) hdiv]
      show (n / 10) * 10 + digitVal (digitChar (n % 10)) = n
      rw [digitVal_digitChar (Nat.mod_lt n (by omega))]
      have := Nat.div_add_mod n 10
      omega

theorem foldDigits_natToChars (n : Nat) : foldDigits 0 (natToChars n) = n :=
  foldDigits_natToCharsCore (n + 1) n (by omega)

theorem parseDigits_natToChars (n : Nat) : parseDigits (natToChars n) = some n := by
  rcases he : natToChars n with _ | ⟨c, cs⟩
  · exact absurd he (natToChars_ne_nil n)
  · unfold parseDigits
    have hall : (c :: cs).all isDigitChar = true := by
      rw [List.all_eq_true]
      intro x hx
      exact natToChars_digits n x (he ▸ hx)
    simp only [hall, if_true]
    rw [← he, foldDigits_natToChars]

theorem digit_not_sign {c : Char} (h : isDigitChar c = true) : c ≠ '+' ∧ c ≠ '-' := by
  constructor <;> (intro he; rw [he] at h; exact absurd h (by decide))

theorem goAtoi_natToChars (n : Nat) : goAtoi (natToChars n) = some (Int.ofNat n) := by
  rcases he : natToChars n with _ | ⟨c, cs⟩
  · exact absurd he (natToChars_ne_nil n)
  · have hd : isDigitChar c = true := natToChars_digits n c (by rw [he]; simp)
    obtain ⟨h1, h2⟩ := digit_not_sign hd
    unfold goAtoi
    split
    · rename_i heq; injection heq with heqc; exact absurd heqc h1
    · rename_i heq; injection heq with heqc; exact absurd heqc h2
    · rw [← he, parseDigits_natToChars]; rfl

/-! ## Header-block framing lemmas -/

theorem joinCRLF_length_ge (hs : List (List Char)) : hs.length ≤ (joinCRLF hs).length := by
  induction hs with
  | nil => simp [joinCRLF]
  | cons h t ih => simp [joinCRLF]; omega

theorem readHeaderLines_joined (hs : List (List Char)) :
    ∀ fuel tail, hs.length < fuel →
    (∀ h ∈ hs, '\n' ∉ h ∧ '\r' ∉ h ∧ h ≠ []) →
    readHeaderLines fuel (joinCRLF hs ++ '\r' :: '\n' :: tail) = .ok (hs, tail) := by
  induction hs with
  | nil =>
    intro fuel tail hf _
    obtain ⟨f, rfl⟩ : ∃ f, fuel = f + 1 := ⟨fuel - 1, by omega⟩
    rfl
  | cons h hs ih =>
    intro fuel tail hf hline
    obtain ⟨f, rfl⟩ : ∃ f, fuel = f + 1 := ⟨fuel - 1, by omega⟩
    obtain ⟨hn, hr, hne⟩ := hline h (by simp)
    have hrest : ∀ x ∈ hs, '\n' ∉ x ∧ '\r' ∉ x ∧ x ≠ [] :=
      fun x hx => hline x (by simp [hx])
    have hshape : joinCRLF (h :: hs) ++ '\r' :: '\n' :: tail =
        h ++ '\r' :: '\n' :: (joinCRLF hs ++ '\r' :: '\n' :: tail) := by
      simp [joinCRLF]
    rw [hshape]
    show readHeaderLines (f + 1) _ = _
    unfold readHeaderLines
    rw [goReadString_crlf hn]
    simp only [if_true]
    rw [goTrimRightCRLF_append hr hn]
    rw [if_neg hne]
    rw [ih f tail (by simp at hf ⊢; omega) hrest]

theorem parseContentLength_skip {p : List Char}
    (hp : headerNameIsCL p = false) (rest : List (List Char)) :
    parseContentLength (p :: rest) = parseContentLength rest := by
  rw [parseContentLength]
  cases hsp : goSplitN2 p ':' with
  | none => rfl
  | some nv =>
    obtain ⟨name, value⟩ := nv
    simp only [headerNameIsCL, hsp] at hp
    simp only [hp, Bool.false_eq_true, if_false]

theorem parseContentLength_none {headers : List (List Char)}
    (h : ∀ p ∈ headers, headerNameIsCL p = false) :
    parseContentLength headers = .error (.protocol "missing Content-Length header") := by
  induction headers with
  | nil => rfl
  | cons p rest ih =>
    rw [parseContentLength_skip (h p (by simp))]
    exact ih (fun x hx => h x (by simp [hx]))

theorem parseContentLength_found {h : List Char} {name value : List Char}
    (hsp : goSplitN2 h ':' = some (name, value))
    (hfold : goEqualFold (goTrimSpace name) ("Content-Length".toList) = true)
    (rest : List (List Char)) :
    parseContentLength (h :: rest) =
      match goAtoi (goTrimSpace value) with
      | some l =>
        if l ≤ 0 then .error (.protocol "invalid Content-Length value") else .ok l.toNat
      | none => .error (.protocol "invalid Content-Length value") := by
  rw [parseContentLength, hsp]
  simp only [hfold, if_true]

theorem parseContentLength_of_decomp {pre : List (List Char)} {clh : List Char}
    {post : List (List Char)} {n : Nat}
    (hpre : ∀ p ∈ pre, headerNameIsCL p = false)
    (hcl : headerNameIsCL clh = true)
    (hval : headerCLValue clh = some (Int.ofNat n)) (hpos : 0 < n) :
    parseContentLength (pre ++ clh :: post) = .ok n := by
  induction pre with
  | nil =>
    cases hsp : goSplitN2 clh ':' with
    | none => simp only [headerNameIsCL, hsp] at hcl; exact absurd hcl (by simp)
    | some nv =>
      obtain ⟨name, value⟩ := nv
      simp only [headerNameIsCL, hsp] at hcl
      simp only [headerCLValue, hsp] at hval
      rw [List.nil_append, parseContentLength_found hsp hcl, hval]
      have hneg : ¬ (Int.ofNat n ≤ 0) := by
        rw [Int.ofNat_eq_natCast]
        omega
      simp only [hneg, if_false]
      simp
  | cons p rest ih =>
    rw [List.cons_append, parseContentLength_skip (hpre p (by simp))]
    exact ih (fun x hx => hpre x (by simp [hx]))

theorem parseContentLength_of_bad {pre : List (List Char)} {clh : List Char}
    {post : List (List Char)}
    (hpre : ∀ p ∈ pre, headerNameIsCL p = false)
    (hcl : headerNameIsCL clh = true)
    (hbad : clValueBad clh = true) :
    parseContentLength (pre ++ clh :: post) =
      .error (.protocol "invalid Content-Length value") := by
  induction pre with
  | nil =>
    cases hsp : goSplitN2 clh ':' with
    | none => simp only [headerNameIsCL, hsp] at hcl; exact absurd hcl (by simp)
    | some nv =>
      obtain ⟨name, value⟩ := nv
      simp only [headerNameIsCL, hsp] at hcl
      simp only [clValueBad, headerCLValue, hsp] at hbad
      rw [List.nil_append, parseContentLength_found hsp hcl]
      cases hat : goAtoi (goTrimSpace value) with
      | none => rfl
      | some l =>
        rw [hat] at hbad
        simp only [decide_eq_true_eq] at hbad
        simp only [hbad, if_true]
  | cons p rest ih =>
    rw [List.cons_append, parseContentLength_skip (hpre p (by simp))]
    exact ih (fun x hx => hpre x (by simp [hx]))


/-- Core behavior of `readMessage` on a well-formed header block: collect
the headers, then act on `parseContentLength`'s verdict. -/
theorem readMessage_header_block (first : List Char) (hs : List (List Char))
    (body : List Char)
    (hline : ∀ h ∈ first :: hs, '\n' ∉ h ∧ '\r' ∉ h ∧ h ≠ [])
    (hfirst1 : goTrimSpace first ≠ [])
    (hfirst2 : (goTrimSpace first).head? ≠ some '{') :
    readMessage (joinCRLF (first :: hs) ++ '\r' :: '\n' :: body) =
      match parseContentLength (first :: hs) with
      | .error e => .error e
      | .ok length =>
        if body = [] then .error .eof
        else if body.length < length then
          .error (.protocol "failed to read payload: unexpected EOF")
        else .ok (body.take length, body.drop length) := by
  obtain ⟨hn, hr, _⟩ := hline first (by simp)
  have hrest : ∀ x ∈ hs, '\n' ∉ x ∧ '\r' ∉ x ∧ x ≠ [] :=
    fun x hx => hline x (by simp [hx])
  have hshape : joinCRLF (first :: hs) ++ '\r' :: '\n' :: body =
      first ++ '\r' :: '\n' :: (joinCRLF hs ++ '\r' :: '\n' :: body) := by
    simp [joinCRLF]
  rw [hshape]
  unfold readMessage
  rw [goReadString_crlf hn]
  simp only [if_true]
  rw [goTrimSpace_append_crlf]
  rw [if_neg hfirst1, if_neg hfirst2]
  have hlen : hs.length < (joinCRLF hs ++ '\r' :: '\n' :: body).length + 1 := by
    have := joinCRLF_length_ge hs
    simp [List.length_append]
    omega
  rw [readHeaderLines_joined hs _ body hlen hrest]
  rw [goTrimRightCRLF_append hr hn]

/-! ## Claim C3: Content-Length framing extracts exactly the declared
count -/

/-- C3.  For every well-formed Content-Length-framed input — a header
block of `\r\n`-terminated lines whose first line is non-empty after
trimming and does not start with a brace, containing (after any number of
unrelated headers) a header whose name case-insensitively equals
`Content-Length` and whose value parses as a positive integer `n`,
terminated by an empty line and followed by at least `n` payload bytes —
`readMessage` returns exactly the `n` bytes following the blank
separator line, regardless of the casing of the header name and of any
extra unrelated headers. -/
theorem readMessage_content_length_exact
    (first : List Char) (hs : List (List Char)) (body : List Char) (n : Nat)
    (hline : ∀ h ∈ first :: hs, '\n' ∉ h ∧ '\r' ∉ h ∧ h ≠ [])
    (hfirst1 : goTrimSpace first ≠ [])
    (hfirst2 : (goTrimSpace first).head? ≠ some '{')
    (hdecomp : ∃ pre clh post, first :: hs = pre ++ clh :: post ∧
      (∀ p ∈ pre, headerNameIsCL p = false) ∧ headerNameIsCL clh = true ∧
      headerCLValue clh = some (Int.ofNat n) ∧ 0 < n)
    (hlen : n ≤ body.length) :
    readMessage (joinCRLF (first :: hs) ++ '\r' :: '\n' :: body) =
      .ok (body.take n, body.drop n) := by
  obtain ⟨pre, clh, post, hsplit, hpre, hcl, hval, hpos⟩ := hdecomp
  rw [readMessage_header_block first hs body hline hfirst1 hfirst2, hsplit,
    parseContentLength_of_decomp hpre hcl hval hpos]
  have hbody : body ≠ [] := by
    intro he
    rw [he] at hlen
    simp at hlen
    omega
  simp only [hbody, if_false, Nat.not_lt.mpr hlen, reduceIte]

/-- Witness for C3: a concrete frame with an unrelated header and a
mixed-case Content-Length header. -/
theorem readMessage_content_length_exact_witness :
    readMessage (joinCRLF ["X-Extra: zz".toList, "cOntent-LENGTH:  5".toList] ++
        '\r' :: '\n' :: "helloXY".toList) =
      .ok ("helloXY".toList.take 5, "helloXY".toList.drop 5) :=
  readMessage_content_length_exact "X-Extra: zz".toList ["cOntent-LENGTH:  5".toList]
    "helloXY".toList 5
    (by decide) (by decide) (by decide)
    ⟨["X-Extra: zz".toList], "cOntent-LENGTH:  5".toList, [],
      rfl, by decide, by decide, by decide, by decide⟩
    (by decide)

/-! ## Claim C7: bad or missing Content-Length is a fatal framing error -/

/-- C7.  For every header block (same well-formedness as C3) that either
contains no Content-Length-named header at all, or whose first
Content-Length-named header has a non-numeric or non-positive value,
`readMessage` returns an error distinct from end-of-stream, and the serve
loop terminates returning that error instead of skipping the message. -/
theorem readMessage_bad_content_length_fatal
    (first : List Char) (hs : List (List Char)) (body : List Char)
    (exec : Executor) (fuel : Nat)
    (hline : ∀ h ∈ first :: hs, '\n' ∉ h ∧ '\r' ∉ h ∧ h ≠ [])
    (hfirst1 : goTrimSpace first ≠ [])
    (hfirst2 : (goTrimSpace first).head? ≠ some '{')
    (hcl : (∀ h ∈ first :: hs, headerNameIsCL h = false) ∨
      (∃ pre clh post, first :: hs = pre ++ clh :: post ∧
        (∀ p ∈ pre, headerNameIsCL p = false) ∧ headerNameIsCL clh = true ∧
        clValueBad clh = true)) :
    ∃ msg, readMessage (joinCRLF (first :: hs) ++ '\r' :: '\n' :: body) =
        .error (.protocol msg) ∧
      serve exec (fuel + 1) (joinCRLF (first :: hs) ++ '\r' :: '\n' :: body) =
        ([], .fatal (.protocol msg)) := by
  have hparse : ∃ msg, parseContentLength (first :: hs) = .error (.protocol msg) := by
    rcases hcl with hnone | ⟨pre, clh, post, hsplit, hpre, hclh, hbad⟩
    · exact ⟨_, parseContentLength_none hnone⟩
    · exact ⟨_, hsplit ▸ parseContentLength_of_bad hpre hclh hbad⟩
  obtain ⟨msg, hmsg⟩ := hparse
  have hread : readMessage (joinCRLF (first :: hs) ++ '\r' :: '\n' :: body) =
      .error (.protocol msg) := by
    rw [readMessage_header_block first hs body hline hfirst1 hfirst2, hmsg]
  refine ⟨msg, hread, ?_⟩
  show serve exec (fuel + 1) _ = _
  unfold serve
  rw [hread]

/-- Witness for C7: the header block `Content-Length: nope\r\n\r\n`. -/
theorem readMessage_bad_content_length_fatal_witness :
    ∃ msg, readMessage (joinCRLF ["Content-Length: nope".toList] ++
        '\r' :: '\n' :: []) = .error (.protocol msg) ∧
      serve execNoKey 1 (joinCRLF ["Content-Length: nope".toList] ++
        '\r' :: '\n' :: []) = ([], .fatal (.protocol msg)) :=
  readMessage_bad_content_length_fatal "Content-Length: nope".toList [] [] execNoKey 0
    (by decide) (by decide) (by decide)
    (Or.inr ⟨[], "Content-Length: nope".toList, [], rfl, by decide, by decide, by decide⟩)

/-! ## Dispatch-layer helper lemmas -/

theorem goTrimSpaceS_empty : goTrimSpaceS "" = "" := rfl

theorem getStringArg_none {args : Args} {k : String}
    (h : lookupField args k = none) : getStringArg args k = "" := by
  unfold getStringArg
  rw [h]

theorem getStringArg_nonstring {args : Args} {k : String} {v : JsonValue}
    (h1 : lookupField args k = some v) (h2 : isStringValue v = false) :
    getStringArg args k = "" := by
  unfold getStringArg
  rw [h1]
  cases v <;> simp_all [isStringValue]

theorem callAkumaQuery_dialect_blank (exec : Executor) (args : Args)
    (h : goTrimSpaceS (getStringArg args "dialect") = "") :
    callAkumaQuery exec args = .error "dialect is required" := by
  simp [callAkumaQuery, h]

theorem callAkumaQuery_prompt_blank (exec : Executor) (args : Args)
    (hd : goTrimSpaceS (getStringArg args "dialect") ≠ "")
    (h : goTrimSpaceS (getStringArg args "prompt") = "") :
    callAkumaQuery exec args = .error "prompt is required" := by
  simp [callAkumaQuery, hd, h]

theorem callAkumaExplain_sql_blank (exec : Executor) (args : Args)
    (h : goTrimSpaceS (getStringArg args "sql") = "") :
    callAkumaExplain exec args = .error "sql is required" := by
  simp [callAkumaExplain, h]

theorem callAkumaSchema_no_tables (exec : Executor) (args : Args)
    (h : lookupField args "tables" = none) :
    callAkumaSchema exec args = .error "tables is required" := by
  simp [callAkumaSchema, h]

theorem callSozoGenerate_missing (exec : Executor) (args : Args)
    (h : lookupField args "records" = none ∨
      (lookupField args "schema" = none ∧ lookupField args "schemaName" = none)) :
    callSozoGenerate exec args = .error "records is required" ∨
    callSozoGenerate exec args = .error "schema or schemaName is required" := by
  cases hr : lookupField args "records" with
  | none => left; simp [callSozoGenerate, hr]
  | some r =>
    rcases h with h | ⟨h1, h2⟩
    · exact absurd hr (by rw [h]; intro he; cases he)
    · right; simp [callSozoGenerate, hr, h1, h2]

theorem handleToolCall_akuma_query (exec : Executor) (args : Args) :
    handleToolCall exec (mkToolCallRaw "akuma.query" args) =
      wrapToolOutcome (callAkumaQuery exec args) := rfl

theorem handleToolCall_akuma_explain (exec : Executor) (args : Args) :
    handleToolCall exec (mkToolCallRaw "akuma.explain" args) =
      wrapToolOutcome (callAkumaExplain exec args) := rfl

theorem handleToolCall_akuma_schema (exec : Executor) (args : Args) :
    handleToolCall exec (mkToolCallRaw "akuma.schema" args) =
      wrapToolOutcome (callAkumaSchema exec args) := rfl

theorem handleToolCall_sozo_generate (exec : Executor) (args : Args) :
    handleToolCall exec (mkToolCallRaw "sozo.generate" args) =
      wrapToolOutcome (callSozoGenerate exec args) := rfl

theorem toolFailure_wrap_error {msg : String} (h : msg ≠ "") :
    toolFailureWithMessage (wrapToolOutcome (.error msg)) = true := by
  simp [toolFailureWithMessage, wrapToolOutcome, isErrorFlag, contentText, lookupField, h]

/-! ## Claim C2: missing required arguments are tool-level failures -/

/-- C2.  For every `tools/call` naming a registered tool but missing a
required argument (akuma.query without `prompt` or `dialect`,
akuma.explain without `sql`, akuma.schema without `tables`, sozo.generate
without `records` or without both `schema` and `schemaName`),
`handleToolCall` returns a nil RPC error together with a result whose
`isError` flag is true and whose content carries a non-empty text
message; no RPC-level error is produced.  (The executor plays no role:
the outcome below holds for every executor.) -/
theorem handleToolCall_missing_required_argument (exec : Executor) (args : Args) :
    ((lookupField args "dialect" = none ∨ lookupField args "prompt" = none) →
      toolFailureWithMessage (handleToolCall exec (mkToolCallRaw "akuma.query" args)) = true) ∧
    (lookupField args "sql" = none →
      toolFailureWithMessage (handleToolCall exec (mkToolCallRaw "akuma.explain" args)) = true) ∧
    (lookupField args "tables" = none →
      toolFailureWithMessage (handleToolCall exec (mkToolCallRaw "akuma.schema" args)) = true) ∧
    ((lookupField args "records" = none ∨
        (lookupField args "schema" = none ∧ lookupField args "schemaName" = none)) →
      toolFailureWithMessage (handleToolCall exec (mkToolCallRaw "sozo.generate" args)) = true) := by
  refine ⟨?_, ?_, ?_, ?_⟩
  · intro h
    rw [handleToolCall_akuma_query]
    by_cases hd : goTrimSpaceS (getStringArg args "dialect") = ""
    · rw [callAkumaQuery_dialect_blank exec args hd]
      exact toolFailure_wrap_error (by decide)
    · have hp : lookupField args "prompt" = none := by
        rcases h with h | h
        · exact absurd hd (by rw [getStringArg_none h, goTrimSpaceS_empty]; simp)
        · exact h
      rw [callAkumaQuery_prompt_blank exec args hd
        (by rw [getStringArg_none hp, goTrimSpaceS_empty])]
      exact toolFailure_wrap_error (by decide)
  · intro h
    rw [handleToolCall_akuma_explain,
      callAkumaExplain_sql_blank exec args (by rw [getStringArg_none h, goTrimSpaceS_empty])]
    exact toolFailure_wrap_error (by decide)
  · intro h
    rw [handleToolCall_akuma_schema, callAkumaSchema_no_tables exec args h]
    exact toolFailure_wrap_error (by decide)
  · intro h
    rw [handleToolCall_sozo_generate]
    rcases callSozoGenerate_missing exec args h with he | he
    · rw [he]; exact toolFailure_wrap_error (by decide)
    · rw [he]; exact toolFailure_wrap_error (by decide)

/-- Witness for C2: empty argument mappings for all four tools. -/
theorem handleToolCall_missing_required_argument_witness :
    toolFailureWithMessage (handleToolCall execNoKey (mkToolCallRaw "akuma.query" [])) = true ∧
    toolFailureWithMessage (handleToolCall execNoKey (mkToolCallRaw "akuma.explain" [])) = true ∧
    toolFailureWithMessage (handleToolCall execNoKey (mkToolCallRaw "akuma.schema" [])) = true ∧
    toolFailureWithMessage (handleToolCall execNoKey (mkToolCallRaw "sozo.generate" [])) = true := by
  obtain ⟨h1, h2, h3, h4⟩ := handleToolCall_missing_required_argument execNoKey []
  exact ⟨h1 (Or.inl rfl), h2 rfl, h3 rfl, h4 (Or.inl rfl)⟩

/-! ## Claim C8: unknown tool names are RPC-level invalid-params errors -/

/-- C8.  For every `tools/call` whose decoded tool name is not one of the
seven registered names, `handleToolCall` returns a nil result and an RPC
error with code `-32602` whose data field carries the offending tool
name.  The conclusion is a constant independent of the executor, so no
Remote Operation Executor call is made. -/
theorem handleToolCall_unknown_tool (exec : Executor) (name : String) (args : Args)
    (h : name ∉ registeredToolNames) :
    handleToolCall exec (mkToolCallRaw name args) =
      (none, some ⟨-32602, "unknown tool", some (.str name)⟩) := by
  have hd : decodeToolsCallParams (mkToolCallRaw name args) = .ok ⟨name, args⟩ := rfl
  unfold handleToolCall
  rw [hd]
  simp only [registeredToolNames, List.mem_cons, List.not_mem_nil, or_false] at h
  push_neg at h
  obtain ⟨n1, n2, n3, n4, n5, n6, n7⟩ := h
  simp [n1, n2, n3, n4, n5, n6, n7]

/-- Witness for C8: the unregistered name `nope.tool`. -/
theorem handleToolCall_unknown_tool_witness :
    handleToolCall execNoKey (mkToolCallRaw "nope.tool" []) =
      (none, some ⟨-32602, "unknown tool", some (.str "nope.tool")⟩) :=
  handleToolCall_unknown_tool execNoKey "nope.tool" [] (by decide)

/-! ## Claim C10: present-but-non-string arguments behave like absent
ones -/

/-- C10.  In `callAkumaQuery` and `callAkumaExplain`, an argument whose
JSON value is present but not a string (for example a numeric `prompt`,
`dialect`, or `sql`) is treated exactly like an absent argument: the type
assertion yields the empty string, validation fails with the
corresponding "is required" message, and — the conclusion being a
constant independent of the executor — the Remote Operation Executor is
never invoked. -/
theorem nonstring_argument_like_absent (exec : Executor) (args : Args)
    (v : JsonValue) (hv : isStringValue v = false) :
    (lookupField args "dialect" = some v →
      getStringArg args "dialect" = "" ∧
      callAkumaQuery exec args = .error "dialect is required") ∧
    (goTrimSpaceS (getStringArg args "dialect") ≠ "" →
      lookupField args "prompt" = some v →
      getStringArg args "prompt" = "" ∧
      callAkumaQuery exec args = .error "prompt is required") ∧
    (lookupField args "sql" = some v →
      getStringArg args "sql" = "" ∧
      callAkumaExplain exec args = .error "sql is required") := by
  refine ⟨?_, ?_, ?_⟩
  · intro h
    have hg := getStringArg_nonstring h hv
    exact ⟨hg, callAkumaQuery_dialect_blank exec args (by rw [hg, goTrimSpaceS_empty])⟩
  · intro hd h
    have hg := getStringArg_nonstring h hv
    exact ⟨hg, callAkumaQuery_prompt_blank exec args hd (by rw [hg, goTrimSpaceS_empty])⟩
  · intro h
    have hg := getStringArg_nonstring h hv
    exact ⟨hg, callAkumaExplain_sql_blank exec args (by rw [hg, goTrimSpaceS_empty])⟩

/-- Witness for C10: numeric arguments. -/
theorem nonstring_argument_like_absent_witness :
    (getStringArg [("dialect", JsonValue.num 5)] "dialect" = "" ∧
      callAkumaQuery execNoKey [("dialect", JsonValue.num 5)] =
        .error "dialect is required") ∧
    (getStringArg [("dialect", JsonValue.str "postgres"), ("prompt", JsonValue.num 7)]
        "prompt" = "" ∧
      callAkumaQuery execNoKey
        [("dialect", JsonValue.str "postgres"), ("prompt", JsonValue.num 7)] =
        .error "prompt is required") ∧
    (getStringArg [("sql", JsonValue.bool true)] "sql" = "" ∧
      callAkumaExplain execNoKey [("sql", JsonValue.bool true)] =
        .error "sql is required") := by
  refine ⟨?_, ?_, ?_⟩
  · exact (nonstring_argument_like_absent execNoKey [("dialect", JsonValue.num 5)]
      (JsonValue.num 5) rfl).1 rfl
  · exact (nonstring_argument_like_absent execNoKey
      [("dialect", JsonValue.str "postgres"), ("prompt", JsonValue.num 7)]
      (JsonValue.num 7) rfl).2.1 (by decide) rfl
  · exact (nonstring_argument_like_absent execNoKey [("sql", JsonValue.bool true)]
      (JsonValue.bool true) rfl).2.2 rfl

/-! ## Serve-loop suppression and response exclusivity -/

theorem serve_step_skips_idless (exec : Executor) (fuel : Nat)
    (input payload rest : List Char) (req : jsonRPCRequest)
    (h1 : readMessage input = .ok (payload, rest))
    (h2 : decodeRequest payload = .ok req)
    (h3 : req.id = none) :
    serve exec (fuel + 1) input = serve exec fuel rest := by
  simp only [serve, h1, h2]
  by_cases hm1 : req.method = "notifications/initialized"
  · simp [hm1]
  · by_cases hm2 : req.method = "initialized"
    · simp [hm1, hm2]
    · simp [hm1, hm2, h3]

theorem exclusiveOutcome_wrap (x : Except String JsonValue) :
    exclusiveOutcome (wrapToolOutcome x) = true := by
  cases x <;> rfl

theorem exclusiveOutcome_handleToolCall (exec : Executor) (raw : Option JsonValue) :
    exclusiveOutcome (handleToolCall exec raw) = true := by
  unfold handleToolCall
  cases decodeToolsCallParams raw with
  | error e => rfl
  | ok p =>
    dsimp only []
    split_ifs <;> first | exact exclusiveOutcome_wrap _ | rfl

theorem exclusiveOutcome_dispatchMethod (exec : Executor) (req : jsonRPCRequest) :
    exclusiveOutcome (dispatchMethod exec req) = true := by
  unfold dispatchMethod
  split_ifs <;> first | rfl | exact exclusiveOutcome_handleToolCall exec req.params

/-! ## Claim C1: id-less requests produce no output -/

/-- C1.  For every decoded request whose identifier is structurally
absent, the serve loop writes no bytes to the output stream for that
request: the iteration that handles it is exactly the continuation on the
remaining input, for every method name — the quantification over `req`
covers every dispatch branch, including the RPC-error branches (unknown
method, unknown tool, undecodable tool-call params). -/
theorem idless_request_writes_no_output (exec : Executor) (fuel : Nat)
    (input payload rest : List Char) (req : jsonRPCRequest)
    (h1 : readMessage input = .ok (payload, rest))
    (h2 : decodeRequest payload = .ok req)
    (h3 : req.id = none) :
    serve exec (fuel + 1) input = serve exec fuel rest :=
  serve_step_skips_idless exec fuel input payload rest req h1 h2 h3

/-- Witness for C1: an id-less `tools/call` naming an unknown tool (a
branch that would produce an RPC error) yields no output. -/
theorem idless_request_writes_no_output_witness :
    serve execNoKey 1
      "\x7b\"jsonrpc\":\"2.0\",\"method\":\"tools/call\",\"params\":\x7b\"name\":\"bogus\"\x7d\x7d\n".toList =
      serve execNoKey 0 [] :=
  idless_request_writes_no_output execNoKey 0 _
    "\x7b\"jsonrpc\":\"2.0\",\"method\":\"tools/call\",\"params\":\x7b\"name\":\"bogus\"\x7d\x7d".toList
    []
    ⟨"2.0", none, "tools/call", some (.obj [("name", .str "bogus")])⟩
    rfl rfl rfl

/-! ## Claim C5: result and error are mutually exclusive; no response for
id-less requests -/

/-- C5.  Every response the server emits carries exactly one of result or
error — the dispatch outcome of every branch (initialize, ping,
tools/list, every tools/call branch, unknown method) has exactly one
component present, and the response is built verbatim from that outcome —
and no response is emitted for a request lacking an identifier. -/
theorem response_exclusive_and_idless_suppressed :
    (∀ (exec : Executor) (req : jsonRPCRequest),
      exclusiveOutcome (dispatchMethod exec req) = true) ∧
    (∀ (exec : Executor) (fuel : Nat) (input payload rest : List Char)
        (req : jsonRPCRequest),
      readMessage input = .ok (payload, rest) →
      decodeRequest payload = .ok req →
      req.id = none →
      serve exec (fuel + 1) input = serve exec fuel rest) :=
  ⟨fun exec req => exclusiveOutcome_dispatchMethod exec req,
   fun exec fuel input payload rest req h1 h2 h3 =>
     serve_step_skips_idless exec fuel input payload rest req h1 h2 h3⟩

/-- Witness for C5: exclusivity at a concrete request, and suppression at
a concrete id-less `ping`. -/
theorem response_exclusive_and_idless_suppressed_witness :
    exclusiveOutcome (dispatchMethod execNoKey ⟨"2.0", none, "tools/call", none⟩) = true ∧
    serve execNoKey 1 "\x7b\"jsonrpc\":\"2.0\",\"method\":\"ping\"\x7d\n".toList =
      serve execNoKey 0 [] :=
  ⟨response_exclusive_and_idless_suppressed.1 execNoKey ⟨"2.0", none, "tools/call", none⟩,
   response_exclusive_and_idless_suppressed.2 execNoKey 0 _
     "\x7b\"jsonrpc\":\"2.0\",\"method\":\"ping\"\x7d".toList []
     ⟨"2.0", none, "ping", none⟩ rfl rfl rfl⟩

/-! ## Claim C4: line-delimited mode -/

/-- C4 counterexample.  The claim quantifies over "every input byte
stream whose first non-empty line starts with a brace" and asserts the
line is returned "verbatim".  Both parts fail on the code: (1) for the
input `"\n{}\n"` the first non-empty line is `{}` (which starts with a
brace), yet `readMessage` fails with "received empty message" instead of
returning it — a blank first line is an error, not skipped; (2) for the
input `"{"a":1} \n"` the returned frame is the trimmed line `{"a":1}`,
not the verbatim line with its trailing space. -/
theorem readMessage_line_mode_cex :
    readMessage "\n\x7b\x7d\n".toList = .error (.protocol "received empty message") ∧
    readMessage "\x7b\"a\":1\x7d \n".toList = .ok ("\x7b\"a\":1\x7d".toList, []) :=
  ⟨rfl, rfl⟩

/-- C4 (amended).  For every input byte stream whose first line is
non-empty after trimming and whose trimmed form starts with a brace,
`readMessage` returns that trimmed line as the frame, performing no
header parsing — including the case where the stream ends without a
terminating newline on that line. -/
theorem readMessage_line_mode (input : List Char)
    (h1 : goTrimSpace (goReadString input).1 ≠ [])
    (h2 : (goTrimSpace (goReadString input).1).head? = some '{') :
    readMessage input = .ok (goTrimSpace (goReadString input).1, (goReadString input).2.1) := by
  unfold readMessage
  rcases hr : goReadString input with ⟨line, rest, b⟩
  simp only [hr] at h1 h2 ⊢
  cases b with
  | false =>
    simp only [Bool.false_eq_true, if_false]
    rw [if_neg h1, if_pos h2]
  | true =>
    simp only [if_true]
    rw [if_neg h1, if_pos h2]

/-- Witness for amended C4: a bare JSON line not terminated by a
newline. -/
theorem readMessage_line_mode_witness :
    readMessage "\x7b\"a\":1\x7d".toList =
      .ok (goTrimSpace (goReadString "\x7b\"a\":1\x7d".toList).1,
        (goReadString "\x7b\"a\":1\x7d".toList).2.1) :=
  readMessage_line_mode "\x7b\"a\":1\x7d".toList (by decide) (by decide)

/-! ## String-escape round trip -/

theorem hexVal_hexDigitChar {d : Nat} (h : d < 16) :
    hexVal (hexDigitChar d) = some d := by
  interval_cases d <;> decide

theorem escapeList_length_ge (cs : List Char) : cs.length ≤ (escapeList cs).length := by
  induction cs with
  | nil => simp [escapeList]
  | cons c cs ih =>
    have hpos : 1 ≤ (escChar c).length := by
      unfold escChar
      split_ifs <;> simp
    show (c :: cs).length ≤ (escChar c ++ escapeList cs).length
    simp only [List.length_cons, List.length_append]
    omega

theorem parseStringBody_u (fuel : Nat) (d1 d2 : Nat) (h1 : d1 < 16) (h2 : d2 < 16)
    (X : List Char) :
    parseStringBody (fuel + 1)
        ('\\' :: 'u' :: '0' :: '0' :: hexDigitChar d1 :: hexDigitChar d2 :: X) =
      consStr (Char.ofNat (d1 * 16 + d2)) (parseStringBody fuel X) := by
  have hstep : parseStringBody (fuel + 1)
      ('\\' :: 'u' :: '0' :: '0' :: hexDigitChar d1 :: hexDigitChar d2 :: X) =
      match hexVal '0', hexVal '0', hexVal (hexDigitChar d1), hexVal (hexDigitChar d2) with
      | some a, some b, some c2, some d =>
        consStr (Char.ofNat (((a * 16 + b) * 16 + c2) * 16 + d)) (parseStringBody fuel X)
      | _, _, _, _ => none := rfl
  rw [hstep, hexVal_hexDigitChar h1, hexVal_hexDigitChar h2,
    (show hexVal '0' = some 0 from rfl)]
  show consStr (Char.ofNat (((0 * 16 + 0) * 16 + d1) * 16 + d2)) (parseStringBody fuel X) = _
  norm_num

theorem parseStringBody_escChar (fuel : Nat) (c : Char) (X : List Char) :
    parseStringBody (fuel + 1) (escChar c ++ X) = consStr c (parseStringBody fuel X) := by
  by_cases h1 : c = '"'
  · subst h1; rfl
  by_cases h2 : c = '\\'
  · subst h2; rfl
  by_cases h3 : c = '\n'
  · subst h3; rfl
  by_cases h4 : c = '\r'
  · subst h4; rfl
  by_cases h5 : c = '\t'
  · subst h5; rfl
  by_cases h6 : c.toNat < 32
  · have hesc : escChar c = ['\\', 'u', '0', '0',
        hexDigitChar (c.toNat / 16), hexDigitChar (c.toNat % 16)] := by
      simp [escChar, h1, h2, h3, h4, h5, h6]
    rw [hesc]
    show parseStringBody (fuel + 1)
      ('\\' :: 'u' :: '0' :: '0' :: hexDigitChar (c.toNat / 16) ::
        hexDigitChar (c.toNat % 16) :: X) = _
    rw [parseStringBody_u fuel (c.toNat / 16) (c.toNat % 16)
      (by omega) (by omega : c.toNat % 16 < 16) X]
    have harith : c.toNat / 16 * 16 + c.toNat % 16 = c.toNat := by omega
    rw [harith, Char.ofNat_toNat]
  · have hesc : escChar c = [c] := by
      simp [escChar, h1, h2, h3, h4, h5, h6]
    rw [hesc]
    show parseStringBody (fuel + 1) (c :: X) = consStr c (parseStringBody fuel X)
    rw [parseStringBody.eq_def]
    dsimp only []
    rw [if_neg h1, if_neg h2]

theorem parseStringBody_escape :
    ∀ (fuel : Nat) (cs rest : List Char), cs.length < fuel →
    parseStringBody fuel (escapeList cs ++ '"' :: rest) = some (cs, rest) := by
  intro fuel
  induction fuel with
  | zero => intro cs rest h; omega
  | succ f ih =>
    intro cs rest h
    cases cs with
    | nil => rfl
    | cons c cs =>
      show parseStringBody (f + 1) ((escChar c ++ escapeList cs) ++ '"' :: rest) = _
      rw [List.append_assoc, parseStringBody_escChar,
        ih cs rest (by simp at h; omega)]
      rfl

/-! ## Number round trip and marshal shape facts -/

theorem takeWhile_dropWhile_append {p : Char → Bool} {l r : List Char}
    (hl : ∀ c ∈ l, p c = true)
    (hr : ∀ c cs, r = c :: cs → p c = false) :
    (l ++ r).takeWhile p = l ∧ (l ++ r).dropWhile p = r := by
  induction l with
  | nil =>
    cases r with
    | nil => simp
    | cons c cs => simp [List.takeWhile_cons, List.dropWhile_cons, hr c cs rfl]
  | cons a l ih =>
    have ha := hl a (by simp)
    have hl2 : ∀ c ∈ l, p c = true := fun c hc => hl c (by simp [hc])
    obtain ⟨h1, h2⟩ := ih hl2
    simp [List.takeWhile_cons, List.dropWhile_cons, ha, h1, h2]

theorem parseNumDigits_natToChars (n : Nat) (rest : List Char)
    (h : noLeadingDigit rest = true) :
    parseNumDigits (natToChars n ++ rest) = some (n, rest) := by
  have hr : ∀ c cs, rest = c :: cs → isDigitChar c = false := by
    intro c cs he
    rw [he] at h
    simpa [noLeadingDigit] using h
  obtain ⟨h1, h2⟩ := takeWhile_dropWhile_append (natToChars_digits n) hr
  unfold parseNumDigits
  rw [h1, h2]
  rcases he : natToChars n with _ | ⟨c, cs⟩
  · exact absurd he (natToChars_ne_nil n)
  · show some (foldDigits 0 (c :: cs), rest) = some (n, rest)
    rw [← he, foldDigits_natToChars]

theorem parseValue_digit {fuel : Nat} {c : Char} {cs : List Char}
    (hc : isDigitChar c = true) :
    parseValue (fuel + 1) (c :: cs) =
      match parseNumDigits (c :: cs) with
      | some (m, r) => some (.num (Int.ofNat m), r)
      | none => none := by
  have hn : c ≠ 'n' := fun e => by rw [e] at hc; exact absurd hc (by decide)
  have ht : c ≠ 't' := fun e => by rw [e] at hc; exact absurd hc (by decide)
  have hf : c ≠ 'f' := fun e => by rw [e] at hc; exact absurd hc (by decide)
  have hq : c ≠ '"' := fun e => by rw [e] at hc; exact absurd hc (by decide)
  have hlb : c ≠ '[' := fun e => by rw [e] at hc; exact absurd hc (by decide)
  have hob : c ≠ '{' := fun e => by rw [e] at hc; exact absurd hc (by decide)
  have hm : c ≠ '-' := fun e => by rw [e] at hc; exact absurd hc (by decide)
  rw [parseValue.eq_def]
  split
  · rename_i heq
    exact absurd heq (by omega)
  · split
    all_goals
      first
        | (rename_i hx
           first
             | exact absurd (List.cons.inj hx).1 hn
             | exact absurd (List.cons.inj hx).1 ht
             | exact absurd (List.cons.inj hx).1 hf
             | exact absurd (List.cons.inj hx).1 hq
             | exact absurd (List.cons.inj hx).1 hlb
             | exact absurd (List.cons.inj hx).1 hob
             | exact absurd (List.cons.inj hx).1 hm
             | exact List.noConfusion hx)
        | (rename_i c2 cs2 hne hx
           obtain ⟨he1, he2⟩ := List.cons.inj hx
           subst he1
           subst he2
           rw [if_pos hc])

theorem marshalV_cons (v : JsonValue) :
    ∃ c cs, marshalV v = c :: cs ∧ c ≠ ']' ∧ c ≠ '}' ∧ c ≠ ',' := by
  cases v with
  | null => refine ⟨'n', _, rfl, ?_, ?_, ?_⟩ <;> decide
  | bool b =>
    cases b with
    | false => refine ⟨'f', _, rfl, ?_, ?_, ?_⟩ <;> decide
    | true => refine ⟨'t', _, rfl, ?_, ?_, ?_⟩ <;> decide
  | num n =>
    by_cases h : n < 0
    · refine ⟨'-', natToChars n.natAbs, by simp [marshalV, intToChars, h], ?_, ?_, ?_⟩ <;>
        decide
    · rcases he : natToChars n.toNat with _ | ⟨c, cs⟩
      · exact absurd he (natToChars_ne_nil _)
      · have hc : isDigitChar c = true := natToChars_digits _ c (by rw [he]; simp)
        refine ⟨c, cs, ?_, ?_, ?_, ?_⟩
        · simp [marshalV, intToChars, h, he]
        · rintro rfl; exact absurd hc (by decide)
        · rintro rfl; exact absurd hc (by decide)
        · rintro rfl; exact absurd hc (by decide)
  | str s => refine ⟨'"', _, rfl, ?_, ?_, ?_⟩ <;> decide
  | arr es => refine ⟨'[', _, rfl, ?_, ?_, ?_⟩ <;> decide
  | obj fs => refine ⟨'{', _, rfl, ?_, ?_, ?_⟩ <;> decide

theorem marshalV_length_pos (v : JsonValue) : 0 < (marshalV v).length := by
  obtain ⟨c, cs, he, -, -, -⟩ := marshalV_cons v
  rw [he]
  simp

theorem noLeadingDigit_elemsTail (vs : List JsonValue) (rest : List Char) :
    noLeadingDigit (marshalElemsTail vs ++ ']' :: rest) = true := by
  cases vs <;> rfl

theorem noLeadingDigit_membersTail (ms : List (String × JsonValue)) (rest : List Char) :
    noLeadingDigit (marshalMembersTail ms ++ '}' :: rest) = true := by
  cases ms <;> rfl

/-! ## Parser step lemmas -/

theorem stringMk_toList (s : String) : String.mk s.toList = s := rfl

theorem append_singleton_append (A : List Char) (c : Char) (rest : List Char) :
    (A ++ [c]) ++ rest = A ++ (c :: rest) := by simp

theorem parseElems_rbracket (fuel : Nat) (X : List Char) :
    parseElems fuel (']' :: X) = some ([], X) := by
  rw [parseElems.eq_def]; simp

theorem parseElems_cons (fuel : Nat) {c : Char} (cs : List Char) (h : c ≠ ']') :
    parseElems (fuel + 1) (c :: cs) =
      match parseValue fuel (c :: cs) with
      | some (v, r1) =>
        match parseElemsTail fuel r1 with
        | some (vs, r2) => some (v :: vs, r2)
        | none => none
      | none => none := by
  rw [parseElems.eq_def]; simp [h]

theorem parseElemsTail_rbracket (fuel : Nat) (X : List Char) :
    parseElemsTail fuel (']' :: X) = some ([], X) := by
  rw [parseElemsTail.eq_def]; simp

theorem parseElemsTail_comma (fuel : Nat) (X : List Char) :
    parseElemsTail (fuel + 1) (',' :: X) =
      match parseValue fuel X with
      | some (v, r1) =>
        match parseElemsTail fuel r1 with
        | some (vs, r2) => some (v :: vs, r2)
        | none => none
      | none => none := by
  rw [parseElemsTail.eq_def]; simp

theorem parseMembers_rbrace (fuel : Nat) (X : List Char) :
    parseMembers fuel ('}' :: X) = some ([], X) := by
  rw [parseMembers.eq_def]; simp

theorem parseMembers_quote (fuel : Nat) (r0 : List Char) :
    parseMembers (fuel + 1) ('"' :: r0) =
      match parseStringBody fuel r0 with
      | some (kcs, r1) =>
        match r1 with
        | ':' :: r2 =>
          match parseValue fuel r2 with
          | some (v, r3) =>
            match parseMembersTail fuel r3 with
            | some (ms, r4) => some ((String.mk kcs, v) :: ms, r4)
            | none => none
          | none => none
        | _ => none
      | none => none := by
  rw [parseMembers.eq_def]; simp

theorem parseMembersTail_rbrace (fuel : Nat) (X : List Char) :
    parseMembersTail fuel ('}' :: X) = some ([], X) := by
  rw [parseMembersTail.eq_def]; simp

theorem parseMembersTail_comma (fuel : Nat) (r0 : List Char) :
    parseMembersTail (fuel + 1) (',' :: '"' :: r0) =
      match parseStringBody fuel r0 with
      | some (kcs, r1) =>
        match r1 with
        | ':' :: r2 =>
          match parseValue fuel r2 with
          | some (v, r3) =>
            match parseMembersTail fuel r3 with
            | some (ms, r4) => some ((String.mk kcs, v) :: ms, r4)
            | none => none
          | none => none
        | _ => none
      | none => none := by
  rw [parseMembersTail.eq_def]; simp

/-! ## Marshal/parse round trip -/

theorem parse_marshal_rt : ∀ fuel : Nat,
    (∀ v rest, (marshalV v).length < fuel → noLeadingDigit rest = true →
      parseValue fuel (marshalV v ++ rest) = some (v, rest)) ∧
    (∀ vs rest, (marshalElems vs).length + 1 < fuel →
      parseElems fuel (marshalElems vs ++ ']' :: rest) = some (vs, rest)) ∧
    (∀ vs rest, (marshalElemsTail vs).length + 1 < fuel →
      parseElemsTail fuel (marshalElemsTail vs ++ ']' :: rest) = some (vs, rest)) ∧
    (∀ ms rest, (marshalMembers ms).length + 1 < fuel →
      parseMembers fuel (marshalMembers ms ++ '}' :: rest) = some (ms, rest)) ∧
    (∀ ms rest, (marshalMembersTail ms).length + 1 < fuel →
      parseMembersTail fuel (marshalMembersTail ms ++ '}' :: rest) = some (ms, rest)) := by
  intro fuel
  induction fuel using Nat.strong_induction_on with
  | _ fuel ih =>
  refine ⟨?_, ?_, ?_, ?_, ?_⟩
  · -- values
    intro v rest hlen hrest
    obtain ⟨f, rfl⟩ : ∃ f, fuel = f + 1 :=
      ⟨fuel - 1, by have := marshalV_length_pos v; omega⟩
    cases v with
    | null => simp only [marshalV]; rfl
    | bool b => cases b <;> (simp only [marshalV]; rfl)
    | num n =>
      simp only [marshalV]
      by_cases hneg : n < 0
      · rw [(show intToChars n = '-' :: natToChars n.natAbs by simp [intToChars, hneg])]
        rw [List.cons_append]
        have hstep : parseValue (f + 1) ('-' :: (natToChars n.natAbs ++ rest)) =
            match parseNumDigits (natToChars n.natAbs ++ rest) with
            | some (m, r) => some (.num (-(Int.ofNat m)), r)
            | none => none := rfl
        rw [hstep, parseNumDigits_natToChars _ rest hrest]
        show some (JsonValue.num (-(Int.ofNat n.natAbs)), rest) = _
        have harith : -(Int.ofNat n.natAbs) = n := by
          rw [Int.ofNat_eq_natCast]
          omega
        rw [harith]
      · rw [(show intToChars n = natToChars n.toNat by simp [intToChars, hneg])]
        rcases he : natToChars n.toNat with _ | ⟨c, cs⟩
        · exact absurd he (natToChars_ne_nil _)
        · have hc : isDigitChar c = true := natToChars_digits _ c (by rw [he]; simp)
          rw [List.cons_append, parseValue_digit hc, ← List.cons_append, ← he,
            parseNumDigits_natToChars _ rest hrest]
          show some (JsonValue.num (Int.ofNat n.toNat), rest) = _
          have harith : Int.ofNat n.toNat = n := by
            rw [Int.ofNat_eq_natCast]
            omega
          rw [harith]
    | str s =>
      simp only [marshalV] at hlen ⊢
      rw [List.cons_append, append_singleton_append]
      have hstep : parseValue (f + 1) ('"' :: (escapeList s.toList ++ '"' :: rest)) =
          match parseStringBody f (escapeList s.toList ++ '"' :: rest) with
          | some (cs, r) => some (.str (String.mk cs), r)
          | none => none := rfl
      have hslen : s.toList.length < f := by
        have h2 := escapeList_length_ge s.toList
        simp only [List.length_cons, List.length_append, List.length_nil] at hlen
        omega
      rw [hstep, parseStringBody_escape f s.toList rest hslen]
      show some (JsonValue.str (String.mk s.toList), rest) = _
      rw [stringMk_toList]
    | arr es =>
      simp only [marshalV] at hlen ⊢
      rw [List.cons_append, append_singleton_append]
      have hstep : parseValue (f + 1) ('[' :: (marshalElems es ++ ']' :: rest)) =
          match parseElems f (marshalElems es ++ ']' :: rest) with
          | some (vs, r) => some (.arr vs, r)
          | none => none := rfl
      have hlen2 : (marshalElems es).length + 1 < f := by
        simp only [List.length_cons, List.length_append, List.length_nil] at hlen
        omega
      rw [hstep, (ih f (by omega)).2.1 es rest hlen2]
    | obj fs =>
      simp only [marshalV] at hlen ⊢
      rw [List.cons_append, append_singleton_append]
      have hstep : parseValue (f + 1) ('{' :: (marshalMembers fs ++ '}' :: rest)) =
          match parseMembers f (marshalMembers fs ++ '}' :: rest) with
          | some (ms, r) => some (.obj ms, r)
          | none => none := rfl
      have hlen2 : (marshalMembers fs).length + 1 < f := by
        simp only [List.length_cons, List.length_append, List.length_nil] at hlen
        omega
      rw [hstep, (ih f (by omega)).2.2.2.1 fs rest hlen2]
  · -- element lists
    intro vs rest hlen
    cases vs with
    | nil =>
      simp only [marshalElems, List.nil_append]
      exact parseElems_rbracket fuel rest
    | cons v vs =>
      simp only [marshalElems] at hlen ⊢
      obtain ⟨f, rfl⟩ : ∃ f, fuel = f + 1 := ⟨fuel - 1, by omega⟩
      obtain ⟨c, cs, hcons, hne1, hne2, hne3⟩ := marshalV_cons v
      simp only [List.length_cons, List.length_append, List.length_nil] at hlen
      have hvpos := marshalV_length_pos v
      rw [List.append_assoc, hcons, List.cons_append, parseElems_cons f _ hne1,
        ← List.cons_append, ← hcons]
      have hlenv : (marshalV v).length < f := by omega
      have hlent : (marshalElemsTail vs).length + 1 < f := by omega
      simp only [(ih f (by omega)).1 v (marshalElemsTail vs ++ ']' :: rest) hlenv
          (noLeadingDigit_elemsTail vs rest),
        (ih f (by omega)).2.2.1 vs rest hlent]
  · -- element tails
    intro vs rest hlen
    cases vs with
    | nil =>
      simp only [marshalElemsTail, List.nil_append]
      exact parseElemsTail_rbracket fuel rest
    | cons v vs =>
      simp only [marshalElemsTail] at hlen ⊢
      obtain ⟨f, rfl⟩ : ∃ f, fuel = f + 1 := ⟨fuel - 1, by omega⟩
      simp only [List.length_cons, List.length_append, List.length_nil] at hlen
      have hvpos := marshalV_length_pos v
      rw [List.cons_append, List.append_assoc, parseElemsTail_comma]
      have hlenv : (marshalV v).length < f := by omega
      have hlent : (marshalElemsTail vs).length + 1 < f := by omega
      simp only [(ih f (by omega)).1 v (marshalElemsTail vs ++ ']' :: rest) hlenv
          (noLeadingDigit_elemsTail vs rest),
        (ih f (by omega)).2.2.1 vs rest hlent]
  · -- member lists
    intro ms rest hlen
    cases ms with
    | nil =>
      simp only [marshalMembers, List.nil_append]
      exact parseMembers_rbrace fuel rest
    | cons m ms =>
      obtain ⟨k, v⟩ := m
      simp only [marshalMembers] at hlen ⊢
      obtain ⟨f, rfl⟩ : ∃ f, fuel = f + 1 := ⟨fuel - 1, by omega⟩
      simp only [List.length_cons, List.length_append, List.length_nil] at hlen
      have hvpos := marshalV_length_pos v
      have hklen := escapeList_length_ge k.toList
      rw [List.cons_append, List.append_assoc, parseMembers_quote]
      rw [(show ('"' :: ':' :: (marshalV v ++ marshalMembersTail ms)) ++ '}' :: rest =
        '"' :: ':' :: (marshalV v ++ (marshalMembersTail ms ++ '}' :: rest)) by simp)]
      rw [parseStringBody_escape f k.toList _ (by omega)]
      have hlenv : (marshalV v).length < f := by omega
      have hlent : (marshalMembersTail ms).length + 1 < f := by omega
      simp only [(ih f (by omega)).1 v (marshalMembersTail ms ++ '}' :: rest) hlenv
          (noLeadingDigit_membersTail ms rest),
        (ih f (by omega)).2.2.2.2 ms rest hlent,
        stringMk_toList]
  · -- member tails
    intro ms rest hlen
    cases ms with
    | nil =>
      simp only [marshalMembersTail, List.nil_append]
      exact parseMembersTail_rbrace fuel rest
    | cons m ms =>
      obtain ⟨k, v⟩ := m
      simp only [marshalMembersTail] at hlen ⊢
      obtain ⟨f, rfl⟩ : ∃ f, fuel = f + 1 := ⟨fuel - 1, by omega⟩
      simp only [List.length_cons, List.length_append, List.length_nil] at hlen
      have hvpos := marshalV_length_pos v
      have hklen := escapeList_length_ge k.toList
      rw [List.cons_append, List.cons_append, List.append_assoc, parseMembersTail_comma]
      rw [(show ('"' :: ':' :: (marshalV v ++ marshalMembersTail ms)) ++ '}' :: rest =
        '"' :: ':' :: (marshalV v ++ (marshalMembersTail ms ++ '}' :: rest)) by simp)]
      rw [parseStringBody_escape f k.toList _ (by omega)]
      have hlenv : (marshalV v).length < f := by omega
      have hlent : (marshalMembersTail ms).length + 1 < f := by omega
      simp only [(ih f (by omega)).1 v (marshalMembersTail ms ++ '}' :: rest) hlenv
          (noLeadingDigit_membersTail ms rest),
        (ih f (by omega)).2.2.2.2 ms rest hlent,
        stringMk_toList]

theorem parseJson_marshalV (v : JsonValue) : parseJson (marshalV v) = some v := by
  unfold parseJson
  have h1 : parseValue ((marshalV v).length + 1) (marshalV v ++ []) = some (v, []) :=
    (parse_marshal_rt _).1 v [] (by omega) rfl
  rw [List.append_nil] at h1
  rw [h1]
  rfl

theorem digit_not_space {c : Char} (h : isDigitChar c = true) : isGoSpace c = false := by
  have h1 : c ≠ ' ' := fun e => by rw [e] at h; exact absurd h (by decide)
  have h2 : c ≠ '\t' := fun e => by rw [e] at h; exact absurd h (by decide)
  have h3 : c ≠ '\n' := fun e => by rw [e] at h; exact absurd h (by decide)
  have h4 : c ≠ Char.ofNat 11 := fun e => by rw [e] at h; exact absurd h (by decide)
  have h5 : c ≠ Char.ofNat 12 := fun e => by rw [e] at h; exact absurd h (by decide)
  have h6 : c ≠ '\r' := fun e => by rw [e] at h; exact absurd h (by decide)
  simp [isGoSpace, h1, h2, h3, h4, h5, h6]

theorem goTrimSpace_no_trim {c d : Char} {m : List Char}
    (hc : isGoSpace c = false) (hd : isGoSpace d = false) :
    goTrimSpace (c :: (m ++ [d])) = c :: (m ++ [d]) := by
  unfold goTrimSpace
  rw [List.dropWhile_cons]
  simp only [hc, Bool.false_eq_true, if_false]
  rw [(show (c :: (m ++ [d])).reverse = d :: (m.reverse ++ [c]) by simp)]
  rw [List.dropWhile_cons]
  simp only [hd, Bool.false_eq_true, if_false]
  simp

theorem writeMessage_shape (resp : jsonRPCResponse) (extra : List Char) :
    writeMessage resp ++ extra =
      joinCRLF [("Content-Length: ".toList ++ natToChars (marshalResponse resp).length)] ++
        '\r' :: '\n' :: (marshalResponse resp ++ extra) := by
  simp [writeMessage, joinCRLF, List.append_assoc]

theorem readMessage_writeMessage (resp : jsonRPCResponse) (extra : List Char) :
    readMessage (writeMessage resp ++ extra) = .ok (marshalResponse resp, extra) := by
  have hNpos : 0 < (marshalResponse resp).length := marshalV_length_pos _
  have hdigits := natToChars_digits (marshalResponse resp).length
  have hhdr_n : '\n' ∉
      "Content-Length: ".toList ++ natToChars (marshalResponse resp).length := by
    intro hmem
    rcases List.mem_append.mp hmem with hmem | hmem
    · exact absurd hmem (by decide)
    · exact absurd (hdigits _ hmem) (by decide)
  have hhdr_r : '\r' ∉
      "Content-Length: ".toList ++ natToChars (marshalResponse resp).length := by
    intro hmem
    rcases List.mem_append.mp hmem with hmem | hmem
    · exact absurd hmem (by decide)
    · exact absurd (hdigits _ hmem) (by decide)
  have hhdr_ne :
      "Content-Length: ".toList ++ natToChars (marshalResponse resp).length ≠ [] := by
    simp
  have htrim : goTrimSpace
      ("Content-Length: ".toList ++ natToChars (marshalResponse resp).length) =
      "Content-Length: ".toList ++ natToChars (marshalResponse resp).length := by
    rcases List.eq_nil_or_concat (natToChars (marshalResponse resp).length)
        with hnil | ⟨ds0, dlast, hds⟩
    · exact absurd hnil (natToChars_ne_nil _)
    · rw [List.concat_eq_append] at hds
      have hdl : isGoSpace dlast = false :=
        digit_not_space (hdigits dlast (by rw [hds]; simp))
      have hshape : "Content-Length: ".toList ++
          natToChars (marshalResponse resp).length =
          'C' :: (("ontent-Length: ".toList ++ ds0) ++ [dlast]) := by
        rw [hds]; simp
      rw [hshape, goTrimSpace_no_trim (by decide) hdl]
  have hline : ∀ h ∈ [("Content-Length: ".toList ++
      natToChars (marshalResponse resp).length)], '\n' ∉ h ∧ '\r' ∉ h ∧ h ≠ [] := by
    intro h hmem
    simp only [List.mem_singleton] at hmem
    subst hmem
    exact ⟨hhdr_n, hhdr_r, hhdr_ne⟩
  have htrim1 : goTrimSpace ("Content-Length: ".toList ++
      natToChars (marshalResponse resp).length) ≠ [] := by
    rw [htrim]; exact hhdr_ne
  have htrim2 : (goTrimSpace ("Content-Length: ".toList ++
      natToChars (marshalResponse resp).length)).head? ≠ some '{' := by
    rw [htrim]
    rw [(show ("Content-Length: ".toList ++
      natToChars (marshalResponse resp).length).head? = some 'C' from rfl)]
    decide
  rw [writeMessage_shape]
  rw [readMessage_header_block _ [] _ hline htrim1 htrim2]
  have hsp : goSplitN2 ("Content-Length: ".toList ++
      natToChars (marshalResponse resp).length) ':' =
      some ("Content-Length".toList, ' ' :: natToChars (marshalResponse resp).length) := by
    rw [(show "Content-Length: ".toList ++ natToChars (marshalResponse resp).length =
      "Content-Length".toList ++ ':' ::
        (' ' :: natToChars (marshalResponse resp).length) from rfl)]
    exact goSplitN2_append (by decide) _
  rw [parseContentLength_found hsp (by decide)]
  rw [goTrimSpace_cons_space, goTrimSpace_of_clean
    (fun c hc => digit_not_space (hdigits c hc))]
  rw [goAtoi_natToChars]
  have hle : ¬ (Int.ofNat (marshalResponse resp).length ≤ 0) := by
    simp only [Int.ofNat_eq_natCast]
    omega
  simp only [hle, if_false, reduceIte]
  have hbody_ne : marshalResponse resp ++ extra ≠ [] := by
    intro he
    have h2 := congrArg List.length he
    rw [List.length_append, List.length_nil] at h2
    omega
  have htoNat : (Int.ofNat (marshalResponse resp).length).toNat =
      (marshalResponse resp).length := rfl
  have hnlt2 : ¬ ((marshalResponse resp ++ extra).length <
      (marshalResponse resp).length) := by
    simp [List.length_append]
  simp only [hbody_ne, if_false, htoNat, hnlt2, reduceIte]
  rw [(show (marshalResponse resp ++ extra).take (marshalResponse resp).length =
    marshalResponse resp from List.take_left _ _)]
  rw [(show (marshalResponse resp ++ extra).drop (marshalResponse resp).length =
    extra from List.drop_left _ _)]

theorem decodeResponse_marshalResponse (resp : jsonRPCResponse) :
    decodeResponse (marshalResponse resp) = some (resp.id, resp.result, resp.error) := by
  obtain ⟨j, id, res, err⟩ := resp
  unfold decodeResponse marshalResponse
  rw [parseJson_marshalV]
  cases id <;> cases res <;>
    rcases err with _ | ⟨c, m, d⟩ <;>
    simp [responseToJson, lookupField, decodeErrorObj, errorToJson]
  all_goals (cases d <;> simp [lookupField])

/-! ## Claim C6: write/read/decode round trip -/

/-- C6.  For every response value, serializing it with `writeMessage`
(Content-Length framing) and then extracting the frame with `readMessage`
yields exactly the serialized payload with the rest of the stream intact,
and JSON-decoding that payload yields back the original identifier,
result, and error fields unchanged. -/
theorem response_roundtrip (resp : jsonRPCResponse) (extra : List Char) :
    readMessage (writeMessage resp ++ extra) = .ok (marshalResponse resp, extra) ∧
    decodeResponse (marshalResponse resp) = some (resp.id, resp.result, resp.error) :=
  ⟨readMessage_writeMessage resp extra, decodeResponse_marshalResponse resp⟩

/-! ## Claim C9: explicit null id -/

theorem serve_step_responds (exec : Executor) (fuel : Nat)
    (input payload rest : List Char) (req : jsonRPCRequest) (idv : JsonValue)
    (h1 : readMessage input = .ok (payload, rest))
    (h2 : decodeRequest payload = .ok req)
    (hm1 : req.method ≠ "notifications/initialized")
    (hm2 : req.method ≠ "initialized")
    (hid : req.id = some idv) :
    serve exec (fuel + 1) input =
      (writeMessage ⟨"2.0", interpId idv, (dispatchMethod exec req).1,
          (dispatchMethod exec req).2⟩ ++ (serve exec fuel rest).1,
        (serve exec fuel rest).2) := by
  cases hsr : serve exec fuel rest with
  | mk moreOut final =>
    simp only [serve, h1, h2]
    simp [hm1, hm2, hid, hsr]

theorem serializedFields_no_id (res : Option JsonValue) (err : Option jsonRPCError) :
    ∃ fs, serializedFields ⟨"2.0", none, res, err⟩ = some fs ∧
      lookupField fs "id" = none := by
  unfold serializedFields marshalResponse
  rw [parseJson_marshalV]
  cases res <;> rcases err with _ | ⟨c, m, d⟩ <;>
    exact ⟨_, rfl, by simp [responseToJson, lookupField]⟩

/-- C9 counterexample.  The claim says every request with an explicit
JSON `null` identifier gets a response.  But the drop of the two
notification methods happens before the id check: a request with method
`initialized` and id `null` decodes with the id structurally present,
yet the serve loop emits nothing for it. -/
theorem null_id_cex :
    decodeRequest
      "\x7b\"jsonrpc\":\"2.0\",\"id\":null,\"method\":\"initialized\"\x7d".toList =
      .ok ⟨"2.0", some .null, "initialized", none⟩ ∧
    serve execNoKey 2
      "\x7b\"jsonrpc\":\"2.0\",\"id\":null,\"method\":\"initialized\"\x7d\n".toList =
      ([], .cleanExit) :=
  ⟨rfl, rfl⟩

/-- C9 (amended).  For every request whose decoded identifier is an
explicit JSON `null` and whose method is not one of the two forms the
loop drops before the id check (`notifications/initialized`,
`initialized`), a response is emitted for it; and because decoding the
raw id bytes `null` into `interface\x7b\x7d` yields a nil interface that
the response's `omitempty` drops, the serialized response contains no
`id` member at all. -/
theorem null_id_response_no_id_member (exec : Executor) (fuel : Nat)
    (input payload rest : List Char) (req : jsonRPCRequest)
    (h1 : readMessage input = .ok (payload, rest))
    (h2 : decodeRequest payload = .ok req)
    (hm1 : req.method ≠ "notifications/initialized")
    (hm2 : req.method ≠ "initialized")
    (hid : req.id = some .null) :
    serve exec (fuel + 1) input =
      (writeMessage ⟨"2.0", none, (dispatchMethod exec req).1,
          (dispatchMethod exec req).2⟩ ++ (serve exec fuel rest).1,
        (serve exec fuel rest).2) ∧
    ∃ fs, serializedFields ⟨"2.0", none, (dispatchMethod exec req).1,
        (dispatchMethod exec req).2⟩ = some fs ∧
      lookupField fs "id" = none :=
  ⟨serve_step_responds exec fuel input payload rest req .null h1 h2 hm1 hm2 hid,
   serializedFields_no_id _ _⟩

/-- Witness for C9: a `ping` with id `null` gets a response whose
serialized form has no `id` member. -/
theorem null_id_response_no_id_member_witness :
    (serve execNoKey 1
        "\x7b\"jsonrpc\":\"2.0\",\"id\":null,\"method\":\"ping\"\x7d\n".toList =
      (writeMessage ⟨"2.0", none,
          (dispatchMethod execNoKey ⟨"2.0", some .null, "ping", none⟩).1,
          (dispatchMethod execNoKey ⟨"2.0", some .null, "ping", none⟩).2⟩ ++
        (serve execNoKey 0 []).1, (serve execNoKey 0 []).2)) ∧
    ∃ fs, serializedFields ⟨"2.0", none,
        (dispatchMethod execNoKey ⟨"2.0", some .null, "ping", none⟩).1,
        (dispatchMethod execNoKey ⟨"2.0", some .null, "ping", none⟩).2⟩ = some fs ∧
      lookupField fs "id" = none :=
  null_id_response_no_id_member execNoKey 0 _
    "\x7b\"jsonrpc\":\"2.0\",\"id\":null,\"method\":\"ping\"\x7d".toList []
    ⟨"2.0", some .null, "ping", none⟩ rfl rfl (by decide) (by decide) rfl
